import Mathlib

/-!
A shallow embedding of the core of the `pips_solver` repository
(`spaces.py` / `basics.py`, `conditions.py`, `regions.py`, `dominoes.py`,
`puzzle.py`, `pips_ilp.py`) together with theorems checking the
natural-language specification against it.

Python strings are modelled as `List Char` (the repository works with
printable ASCII text).  Python exceptions are modelled by an error type
`PyError` and fallible operations return `Except PyError _`.  Python sets
and dicts are modelled by lists (insertion order preserved); `sorted` is
modelled by `List.insertionSort`, which produces the same list of values
as Python's `sorted` for the decidable total orders used here.
-/

namespace Pips

/-- Python string, modelled as its list of characters. -/
abbrev Str := List Char

/-- The kinds of exception raised by the modelled code. -/
inductive PyError where
  | valueError (msg : Str)
  | typeError (msg : Str)
deriving DecidableEq, Repr

instance {ε α : Type} [DecidableEq ε] [DecidableEq α] :
    DecidableEq (Except ε α) := fun x y =>
  match x, y with
  | .ok a, .ok b =>
    if h : a = b then isTrue (by rw [h])
    else isFalse (by intro hh; cases hh; exact h rfl)
  | .error a, .error b =>
    if h : a = b then isTrue (by rw [h])
    else isFalse (by intro hh; cases hh; exact h rfl)
  | .ok _, .error _ => isFalse (by intro hh; cases hh)
  | .error _, .ok _ => isFalse (by intro hh; cases hh)

/-- Model of Python `str.isspace()` for a single ASCII character. -/
def pyIsSpace (c : Char) : Bool :=
  c = ' ' || c = '\t' || c = '\n' || c = '\r' || c = '\x0b' || c = '\x0c'

/-- Model of Python `str.isdigit()` for a single ASCII character. -/
def pyIsDigit (c : Char) : Bool :=
  48 ≤ c.toNat && c.toNat ≤ 57

/-- Numeric value of an ASCII digit character. -/
def digitVal (c : Char) : Nat := c.toNat - 48

/-- Model of Python `str.strip()`: drop whitespace from both ends. -/
def pyStrip (s : Str) : Str :=
  ((s.dropWhile pyIsSpace).reverse.dropWhile pyIsSpace).reverse

/-- Model of Python `str.isdigit()` for a whole string: non-empty and
all characters are digits. -/
def pyIsDigitStr (s : Str) : Bool :=
  !s.isEmpty && s.all pyIsDigit

/-- Digit-group tail of CPython's base-10 integer literal grammar
`digit (('_')? digit)*`: underscores are allowed only between digits.
`acc` is the value of the digits consumed so far. -/
def puAux (acc : Nat) : Str → Option Nat
  | [] => some acc
  | c :: rest =>
    if pyIsDigit c then puAux (10 * acc + digitVal c) rest
    else if c = '_' then
      match rest with
      | c2 :: rest2 =>
        if pyIsDigit c2 then puAux (10 * acc + digitVal c2) rest2 else none
      | [] => none
    else none

/-- Unsigned part of CPython's base-10 `int()` grammar: a non-empty digit
sequence with optional single underscores between digits. -/
def parseDigitsPy : Str → Option Nat
  | [] => none
  | c :: rest => if pyIsDigit c then puAux (digitVal c) rest else none

/-- Sign handling of CPython's base-10 `int()` grammar, applied to the
stripped input's head character and tail. -/
def pyIntCore (c : Char) (rest : Str) : Option Int :=
  if c = '+' then (parseDigitsPy rest).map (fun v => (v : Int))
  else if c = '-' then (parseDigitsPy rest).map (fun v => -(v : Int))
  else (parseDigitsPy (c :: rest)).map (fun v => (v : Int))

/-- Model of Python `int(s)` on a base-10 string: surrounding whitespace
is stripped, an optional single sign is allowed, then the digit grammar. -/
def pyInt (s : Str) : Option Int :=
  match pyStrip s with
  | [] => none
  | c :: rest => pyIntCore c rest

/-- Decimal digit characters of `n`, most significant first, with `fuel`
bounding the recursion depth (`n ≤ fuel` suffices). -/
def decCharsAux : Nat → Nat → Str
  | 0, _ => []
  | fuel + 1, n =>
    if n = 0 then []
    else decCharsAux fuel (n / 10) ++ [Char.ofNat (48 + n % 10)]

/-- Model of Python `str(n)` for a non-negative integer `n`. -/
def decChars (n : Nat) : Str :=
  if n = 0 then ['0'] else decCharsAux (n + 1) n

/-- Model of Python `str(n)` for an arbitrary integer `n`. -/
def pyStrInt (n : Int) : Str :=
  if n < 0 then '-' :: decChars n.natAbs else decChars n.toNat

/-! ### `spaces.py` / `basics.py`: the `Space` data class -/

/-- Row and column coordinates for one space on a Pips board
(`Space` in `spaces.py`).  Python ints are modelled as `Int`. -/
structure Space where
  r : Int
  c : Int
deriving DecidableEq, Repr

/-- Model of `Space.__init__`: bounds validation unless `unchecked` is requested
(`TOPMOST_ROW = 1`, `LEFTMOST_COLUMN = 1`). -/
def Space.init (r c : Int) (unchecked : Bool) : Except PyError Space :=
  if !unchecked then
    if r < 1 then
      .error (.valueError "row number cannot be less than 1".data)
    else if c < 1 then
      .error (.valueError "column number cannot be less than 1".data)
    else .ok ⟨r, c⟩
  else .ok ⟨r, c⟩

/-- Model of `Space.__str__`: the row and column joined by a comma. -/
def Space.str (s : Space) : Str := pyStrInt s.r ++ [','] ++ pyStrInt s.c

/-- Model of `Space.shift_by`: raises `TypeError` when neither delta is supplied,
otherwise returns an unchecked shifted space. -/
def Space.shift_by (s : Space) (delta_r delta_c : Option Int) :
    Except PyError Space :=
  if delta_r = none ∧ delta_c = none then
    .error (.typeError "must specify at least one of delta_r or delta_c".data)
  else
    .ok ⟨s.r + (match delta_r with | none => 0 | some d => d),
         s.c + (match delta_c with | none => 0 | some d => d)⟩

/-- The four neighbors of a space, in the order the source computes them:
`shift_by(delta_r=+1)`, `shift_by(delta_r=-1)`, `shift_by(delta_c=+1)`,
`shift_by(delta_c=-1)`.  These `shift_by` calls supply a delta, so the
`TypeError` branch of `shift_by` can never fire here. -/
def Space.neighbors (s : Space) : List Space :=
  [⟨s.r + 1, s.c⟩, ⟨s.r - 1, s.c⟩, ⟨s.r, s.c + 1⟩, ⟨s.r, s.c - 1⟩]

/-- The total order on spaces generated by `@dataclass(order=True)`:
lexicographic on `(r, c)`. -/
def Space.le (a b : Space) : Prop :=
  a.r < b.r ∨ (a.r = b.r ∧ a.c ≤ b.c)

instance : DecidableRel Space.le := fun a b => by
  unfold Space.le; infer_instance

instance : IsTotal Space Space.le :=
  ⟨fun a b => by unfold Space.le; omega⟩

instance : IsTrans Space Space.le :=
  ⟨fun a b c hab hbc => by unfold Space.le at *; omega⟩

/-- The strict version of the order on spaces. -/
def Space.lt (a b : Space) : Prop :=
  a.r < b.r ∨ (a.r = b.r ∧ a.c < b.c)

instance : DecidableRel Space.lt := fun a b => by
  unfold Space.lt; infer_instance

/-! ### `dominoes.py` / `basics.py`: the `Domino` data class -/

/-- A single Pips domino piece (`Domino` in `dominoes.py`).  The two dots
values are stored in sorted order in `dots`; `flip_dots` remembers
whether the input order was reversed.  Python `==`/hashing compare only
`dots` (`flip_dots` has `compare=False`), so Python domino equality is
equality of the `dots` fields, not Lean structure equality. -/
structure Domino where
  dots : Int × Int
  flip_dots : Bool
deriving DecidableEq, Repr

/-- Model of `Domino.__init__`: swap into sorted order, then validate the range
`MIN_DOTS = 0 ≤ dots_1 ≤ dots_2 ≤ MAX_DOTS = 6`. -/
def Domino.init (dots_1 dots_2 : Int) : Except PyError Domino :=
  let flip := dots_1 > dots_2
  let a := if flip then dots_2 else dots_1
  let b := if flip then dots_1 else dots_2
  if ¬(0 ≤ a ∧ a ≤ b ∧ b ≤ 6) then
    .error (.valueError "domino dots values must range from 0 to 6".data)
  else .ok ⟨(a, b), flip⟩

/-- Model of `Domino.__iter__` as a list: the dots in original input order. -/
def Domino.toList (d : Domino) : List Int :=
  if d.flip_dots then [d.dots.2, d.dots.1] else [d.dots.1, d.dots.2]

/-- Model of `Domino.__str__`: `'|'.join(map(str, self))`. -/
def Domino.str (d : Domino) : Str :=
  (List.intercalate ['|'] (d.toList.map pyStrInt))

/-! ### `conditions.py`: the five region `Condition` variants -/

/-- The closed set of region conditions: `Number`, `Equal`, `NotEqual`,
`GreaterThan`, `LessThan` from `conditions.py`. -/
inductive Condition where
  | number (n : Int)
  | equal
  | notEqual
  | greaterThan (n : Int)
  | lessThan (n : Int)
deriving DecidableEq, Repr

/-- Model of `Condition.as_terse_string` across the five variants
(`EQUAL_SYMBOL = '='`, `NOT_EQUAL_SYMBOL = '=/='`, the greater-than
symbol `'>'` and the less-than symbol `'<'`). -/
def Condition.as_terse_string : Condition → Str
  | .number n => pyStrInt n
  | .equal => ['=']
  | .notEqual => ['=', '/', '=']
  | .greaterThan n => '>' :: pyStrInt n
  | .lessThan n => '<' :: pyStrInt n

/-- Model of `Number.maybe_parse`: `int(condition_string.strip())`, with both the
`int()` failure and the constructor's negative-number `ValueError`
caught and turned into `None`. -/
def Number.maybe_parse (s : Str) : Option Condition :=
  match pyInt (pyStrip s) with
  | some n => if n < 0 then none else some (.number n)
  | none => none

/-- Model of `Equal.maybe_parse`: accepts exactly the stripped string `'='`. -/
def Equal.maybe_parse (s : Str) : Option Condition :=
  if pyStrip s = ['='] then some .equal else none

/-- Model of `NotEqual.maybe_parse`: accepts exactly the stripped string `'=/='`. -/
def NotEqual.maybe_parse (s : Str) : Option Condition :=
  if pyStrip s = ['=', '/', '='] then some .notEqual else none

/-- Model of `GreaterThan.maybe_parse`: the stripped string must start with `'>'`
(the `startswith`/`removeprefix` pair is modelled by matching off the
head character), the remainder must satisfy `str.isdigit`, and the
constructor's negative-number check is caught as in the source. -/
def GreaterThan.maybe_parse (s : Str) : Option Condition :=
  match pyStrip s with
  | '>' :: rest =>
    if pyIsDigitStr rest then
      match pyInt rest with
      | some n => if n < 0 then none else some (.greaterThan n)
      | none => none
    else none
  | _ => none

/-- Model of `LessThan.maybe_parse`: like `GreaterThan.maybe_parse` with `'<'`;
the constructor raises unless the number is strictly positive. -/
def LessThan.maybe_parse (s : Str) : Option Condition :=
  match pyStrip s with
  | '<' :: rest =>
    if pyIsDigitStr rest then
      match pyInt rest with
      | some n => if n ≤ 0 then none else some (.lessThan n)
      | none => none
    else none
  | _ => none

/-- Model of `parse_condition`: first-match-wins scan over `CONDITION_TYPES =
[Number, Equal, NotEqual, GreaterThan, LessThan]`; raises `ValueError`
when no variant accepts the string. -/
def parse_condition (s : Str) : Except PyError Condition :=
  match Number.maybe_parse s with
  | some c => .ok c
  | none =>
    match Equal.maybe_parse s with
    | some c => .ok c
    | none =>
      match NotEqual.maybe_parse s with
      | some c => .ok c
      | none =>
        match GreaterThan.maybe_parse s with
        | some c => .ok c
        | none =>
          match LessThan.maybe_parse s with
          | some c => .ok c
          | none =>
            .error (.valueError ("invalid terse condition string: ".data ++ s))

/-! ### `regions.py`: the `Region` data class and its connectivity check -/

/-- A sorted frozen collection of Pips board spaces (`Region` in
`regions.py`); `spaces` is the canonically sorted tuple. -/
structure Region where
  spaces : List Space
deriving DecidableEq, Repr

/-- The loop of `Region._check_connectedness`: a breadth-first search.
`rg` is the region's space tuple, `frontier` and `visited` model the
Python sets (as duplicate-free lists; Python's arbitrary `set.pop` is
modelled by popping the head, which changes only the exploration order,
not the final visited set).  `fuel` bounds the number of iterations;
`rg.length` is enough because each pop moves one new space into
`visited`. -/
def bfsLoop (rg : List Space) : Nat → List Space → List Space → List Space
  | 0, _, visited => visited
  | fuel + 1, frontier, visited =>
    match frontier with
    | [] => visited
    | s :: rest =>
      let visited2 := if s ∈ visited then visited else s :: visited
      let newNbrs := (Space.neighbors s).filter
        (fun nb => nb ∈ rg ∧ nb ∉ visited2 ∧ nb ∉ rest)
      bfsLoop rg fuel (rest ++ newNbrs) visited2

/-- Model of `Region._check_connectedness` as a boolean: start a BFS from the first
space of the tuple and check that it visits every space.  The empty case
cannot arise because `Region.__init__` rejects empty input before calling
the check. -/
def Region.check_connectedness (rg : Region) : Bool :=
  match rg.spaces with
  | [] => true
  | s0 :: _ =>
    (bfsLoop rg.spaces rg.spaces.length [s0] []).length = rg.spaces.length

/-- Model of `Region.__init__`: sort the input, reject empty input, reject literal
duplicates (`len(frozenset(t)) < len(t)`), then run the connectivity
check, which raises on a disconnected region. -/
def Region.init (spaces : List Space) : Except PyError Region :=
  let spaces_tuple := List.insertionSort Space.le spaces
  if spaces_tuple.length < 1 then
    .error (.valueError "region must contain at least one space".data)
  else if spaces_tuple.dedup.length < spaces_tuple.length then
    .error (.valueError "spaces inside a region must be unique".data)
  else if Region.check_connectedness ⟨spaces_tuple⟩ then
    .ok ⟨spaces_tuple⟩
  else
    .error (.valueError "spaces in a region must all be connected".data)

/-- One step of 4-neighbor adjacency inside the space collection `l`:
`b` is a grid neighbor of `a` and belongs to `l` (this is exactly the
membership test the BFS performs). -/
def StepIn (l : List Space) (a b : Space) : Prop :=
  b ∈ Space.neighbors a ∧ b ∈ l

/-- Reachability inside the space collection `l` by 4-neighbor steps. -/
def ReachableIn (l : List Space) (a b : Space) : Prop :=
  Relation.ReflTransGen (StepIn l) a b

/-- Declarative connectivity of a space collection: every space reaches
every other by 4-neighbor steps staying inside the collection ("from an
arbitrary start element" in the specification's words). -/
def SpacesConnected (l : List Space) : Prop :=
  ∀ a ∈ l, ∀ b ∈ l, ReachableIn l a b

/-- Model of `Region.overlaps_with`: the two regions share at least one space. -/
def Region.overlaps_with (a b : Region) : Bool :=
  a.spaces.any (fun s => s ∈ b.spaces)

/-- The total order on regions generated by `@dataclass(order=True)`:
lexicographic comparison of the space tuples. -/
def Region.le (a b : Region) : Prop :=
  List.Lex Space.lt a.spaces b.spaces ∨ a.spaces = b.spaces

instance : DecidableRel Region.le := fun a b => by
  unfold Region.le; infer_instance

/-! ### `puzzle.py`: `Board` and `Puzzle` -/

/-- The game board (`Board` in `puzzle.py`): `spaces` models the Python
set of spaces (a duplicate-free list in insertion order) and `regions`
models the `dict[Region, Condition]` (an association list in insertion
order). -/
structure Board where
  spaces : List Space
  regions : List (Region × Condition)
deriving DecidableEq, Repr

/-- Model of `Board.num_spaces`. -/
def Board.num_spaces (b : Board) : Nat := b.spaces.length

/-- Model of `Board.iter_sorted_spaces`: the spaces in sorted order. -/
def Board.iter_sorted_spaces (b : Board) : List Space :=
  List.insertionSort Space.le b.spaces

/-- Model of `Board.iter_sorted_regions`: the region keys in sorted order. -/
def Board.iter_sorted_regions (b : Board) : List Region :=
  List.insertionSort Region.le (b.regions.map (fun rc => rc.1))

/-- Model of `Board.get_condition`: dictionary lookup by region.  A missing key
would raise `KeyError` in Python; the formulator only ever looks up
regions of the board, so the default value is never observable there. -/
def Board.get_condition (b : Board) (r : Region) : Condition :=
  match b.regions.find? (fun rc => rc.1 = r) with
  | some rc => rc.2
  | none => .number 0

/-- A full Pips puzzle (`Puzzle` in `puzzle.py`). -/
structure Puzzle where
  board : Board
  dominoes : List Domino
deriving DecidableEq, Repr

/-- Model of `Puzzle.__init__`: reject duplicate dominoes (`frozenset` dedups by
Python domino equality, i.e. by the `dots` field only), then require the
total space demand of the dominoes (`len(domino) = 2` each, accumulated
by the source's loop) to equal the board's space count. -/
def Puzzle.init (board : Board) (dominoes : List Domino) :
    Except PyError Puzzle :=
  if (dominoes.map (fun d => d.dots)).dedup.length < dominoes.length then
    .error (.valueError "puzzle contains at least one duplicate domino".data)
  else
    let spaces_needed := dominoes.foldl (fun acc _ => acc + 2) 0
    if spaces_needed ≠ board.num_spaces then
      .error (.valueError
        ("board has ".data ++ pyStrInt (board.num_spaces : Int)
          ++ " spaces for dominoes, but needs ".data
          ++ pyStrInt (spaces_needed : Int)))
    else .ok ⟨board, dominoes⟩

/-- Model of `Puzzle.iter_sorted_spaces`. -/
def Puzzle.iter_sorted_spaces (p : Puzzle) : List Space :=
  p.board.iter_sorted_spaces

/-- Model of `Puzzle.iter_sorted_regions`. -/
def Puzzle.iter_sorted_regions (p : Puzzle) : List Region :=
  p.board.iter_sorted_regions

/-- Model of `Puzzle.get_condition`. -/
def Puzzle.get_condition (p : Puzzle) (r : Region) : Condition :=
  p.board.get_condition r

/-! ### `spaces.py`: `parse_board_layout` -/

/-- Split a character list at `'\n'` separators (one more chunk than
separators, like Python `str.split('\n')`). -/
def splitNl : Str → List Str
  | [] => [[]]
  | c :: rest =>
    if c = '\n' then [] :: splitNl rest
    else
      match splitNl rest with
      | l :: ls => (c :: l) :: ls
      | [] => [[c]]

/-- Model of Python `str.splitlines()` for `'\n'`-separated text: like
splitting at `'\n'`, except that the empty string gives no lines and a
trailing newline contributes no trailing empty line. -/
def pySplitlines (s : Str) : List Str :=
  if s = [] then []
  else if s.getLast? = some '\n' then (splitNl s).dropLast
  else splitNl s

/-- The inner loop of `parse_board_layout`: scan one layout line, with
columns numbered from `LEFTMOST_COLUMN = 1`, skipping whitespace
characters and recording each other character at its coordinates. -/
def scanLine (r : Int) (c : Int) : Str → List (Space × Char)
  | [] => []
  | ch :: rest =>
    if pyIsSpace ch then scanLine r (c + 1) rest
    else (⟨r, c⟩, ch) :: scanLine r (c + 1) rest

/-- The outer loop of `parse_board_layout`: lines numbered from
`TOPMOST_ROW = 1`.  Distinct positions yield distinct coordinates, so the
source's `assert space not in spaces` can never fire. -/
def scanLines (r : Int) : List Str → List (Space × Char)
  | [] => []
  | line :: rest => scanLine r 1 line ++ scanLines (r + 1) rest

/-- Model of `parse_board_layout`: scan the layout, then shift so that the minimum
occupied row and column become 1.  On a layout with no non-whitespace
character the source evaluates `min()` over an empty sequence, which
raises `ValueError`. -/
def parse_board_layout (s : Str) : Except PyError (List (Space × Char)) :=
  let spaces := scanLines 1 (pySplitlines s)
  match spaces with
  | [] => .error (.valueError "min() arg is an empty sequence".data)
  | (sp0, _) :: _ =>
    let r_min := (spaces.map (fun sc => sc.1.r)).foldl min sp0.r
    let c_min := (spaces.map (fun sc => sc.1.c)).foldl min sp0.c
    if r_min ≠ 1 ∨ c_min ≠ 1 then
      .ok (spaces.map (fun sc =>
        (⟨sc.1.r + (1 - r_min), sc.1.c + (1 - c_min)⟩, sc.2)))
    else .ok spaces

/-! ### `pips_ilp.py`: the integer-linear-program formulation

PuLP objects are modelled as follows: an `LpVariable` is identified by
its name string; an `LpAffineExpression` is an association list from
variable names to integer coefficients in insertion order (PuLP stores a
dict and merges coefficients on addition); an `LpConstraint` is the
expression together with a comparison sense, a right-hand constant and
the name it is registered under in the problem; an `LpProblem` is the
list of its named constraints (the objective is irrelevant for this
feasibility problem). -/

/-- An ordered pair of adjacent spaces where a domino could be placed
(`Spot` in `pips_ilp.py`). -/
structure Spot where
  spaces : Space × Space
deriving DecidableEq, Repr

/-- Model of `Spot.__init__`: the two spaces must be at Manhattan distance
exactly 1. -/
def Spot.init (space_1 space_2 : Space) : Except PyError Spot :=
  if (space_2.r - space_1.r).natAbs + (space_2.c - space_1.c).natAbs ≠ 1 then
    .error (.valueError "spot must be made up of two adjacent spaces".data)
  else .ok ⟨(space_1, space_2)⟩

/-- Model of `Spot.__str__`: `':'.join(map(str, self))`. -/
def Spot.str (sp : Spot) : Str :=
  sp.spaces.1.str ++ [':'] ++ sp.spaces.2.str

/-- The total order on spots generated by `@dataclass(order=True)`:
lexicographic comparison of the space pairs, each compared by the
space order. -/
def Spot.le (a b : Spot) : Prop :=
  Space.lt a.spaces.1 b.spaces.1 ∨
    (a.spaces.1 = b.spaces.1 ∧ Space.le a.spaces.2 b.spaces.2)

instance : DecidableRel Spot.le := fun a b => by
  unfold Spot.le; infer_instance

/-- Model of `get_sorted_spots`: for every board space, pair it with each of its
four neighbors that is also on the board (the constructed pairs are
adjacent by construction, so `Spot.__init__`'s check always passes),
deduplicate via set semantics, and sort. -/
def get_sorted_spots (p : Puzzle) : List Spot :=
  let raw := p.iter_sorted_spaces.flatMap (fun space =>
    (Space.neighbors space).filterMap (fun neighbor =>
      if neighbor ∈ p.board.spaces then some ⟨(space, neighbor)⟩ else none))
  List.insertionSort Spot.le raw.dedup

/-- PuLP variable names: the literal `placement__` followed by the
domino string, `__`, and the spot string. -/
def placementVarName (d : Domino) (sp : Spot) : Str :=
  "placement__".data ++ d.str ++ "__".data ++ sp.str

/-- Model of `create_placement_vars`: one binary variable per (domino, spot) pair,
in the source's iteration order (dominoes outer, spots inner). -/
def create_placement_vars (p : Puzzle) (spots : List Spot) :
    List ((Domino × Spot) × Str) :=
  p.dominoes.flatMap (fun domino =>
    spots.map (fun spot => ((domino, spot), placementVarName domino spot)))

/-- Model of `get_sorted_dots`: the sorted set of dots values appearing on the
puzzle's dominoes. -/
def get_sorted_dots (p : Puzzle) : List Int :=
  List.insertionSort (fun a b => a ≤ b)
    ((p.dominoes.flatMap Domino.toList).dedup)

/-- Model of `pulp.LpAffineExpression`: variable-name/coefficient pairs
in insertion order. -/
abbrev Expr := List (Str × Int)

/-- Adding `k * variable` to an expression: merge into an existing
coefficient, else append a new term (PuLP's `addInPlace` on a dict). -/
def Expr.addTerm (e : Expr) (v : Str) (k : Int) : Expr :=
  if e.any (fun t => t.1 = v) then
    e.map (fun t => if t.1 = v then (t.1, t.2 + k) else t)
  else e ++ [(v, k)]

/-- Adding one expression into another, term by term. -/
def Expr.addExpr (e f : Expr) : Expr :=
  f.foldl (fun acc t => acc.addTerm t.1 t.2) e

/-- Multiplying an expression by an integer constant. -/
def Expr.scale (k : Int) (e : Expr) : Expr :=
  e.map (fun t => (t.1, k * t.2))

/-- Model of `pulp.lpSum` over a list of expressions. -/
def lpSum (es : List Expr) : Expr :=
  es.foldl Expr.addExpr []

/-- Look up a keyed expression in an association list.  Python raises
`KeyError` for a missing key; the formulator only looks up keys it
created, so the default is never observable there. -/
def getExpr {α : Type} [DecidableEq α] (m : List (α × Expr)) (k : α) : Expr :=
  match m.find? (fun kv => kv.1 = k) with
  | some kv => kv.2
  | none => []

/-- Add `v` into the expression stored at key `k`. -/
def addAt {α : Type} [DecidableEq α] (m : List (α × Expr)) (k : α)
    (v : Str) : List (α × Expr) :=
  m.map (fun kv => if kv.1 = k then (kv.1, kv.2.addTerm v 1) else kv)

/-- Model of `create_dot_pattern_exprs`: initialise a zero expression for every
(space, dot) pair, then for every domino, spot and `zip(domino, spot)`
pair add `1 * placement_vars[domino, spot]` into the matching entry. -/
def create_dot_pattern_exprs (p : Puzzle) (spots : List Spot)
    (dots : List Int) : List ((Space × Int) × Expr) :=
  let init : List ((Space × Int) × Expr) :=
    p.iter_sorted_spaces.flatMap (fun space =>
      dots.map (fun dot => ((space, dot), ([] : Expr))))
  p.dominoes.foldl (fun m domino =>
    spots.foldl (fun m spot =>
      (domino.toList.zip [spot.spaces.1, spot.spaces.2]).foldl
        (fun m ds =>
          addAt m (ds.2, ds.1) (placementVarName domino spot)) m) m) init

/-- Model of `create_dot_number_exprs`: initialise a zero expression for every
space, then walk the dot-pattern entries in order and add
`dot * dot_pattern_expr` into the space's expression. -/
def create_dot_number_exprs (p : Puzzle)
    (dot_pattern_exprs : List ((Space × Int) × Expr)) :
    List (Space × Expr) :=
  let init : List (Space × Expr) :=
    p.iter_sorted_spaces.map (fun space => (space, ([] : Expr)))
  dot_pattern_exprs.foldl (fun m entry =>
    m.map (fun kv =>
      if kv.1 = entry.1.1 then
        (kv.1, kv.2.addExpr (Expr.scale entry.1.2 entry.2))
      else kv)) init

/-- Model of `abbreviate_region`: the literal `Rg` followed by the string
of the region's first
(sorted-least) space.  A region is never empty, so the fallback head is
unreachable. -/
def abbreviate_region (r : Region) : Str :=
  "Rg".data ++ (match r.spaces with
    | [] => []
    | s :: _ => s.str)

/-- The comparison sense of a PuLP constraint. -/
inductive Sense where
  | le
  | ge
  | eq
deriving DecidableEq, Repr

/-- Model of a named `pulp.LpConstraint`: a linear expression compared
with an integer constant. -/
structure Constraint where
  name : Str
  lhs : Expr
  sense : Sense
  rhs : Int
deriving DecidableEq, Repr

/-- The constraints `formulate_ilp` emits for one region, dispatched on
its condition exactly as the source's `match` does.  The `Equal` case's
`expr_1 == expr_2` is modelled as `expr_1 - expr_2 = 0` (PuLP subtracts
the right operand).  The source's defensive `TypeError` fallback is
unrepresentable because `Condition` is a closed inductive type. -/
def region_constraints (dots : List Int)
    (dot_pattern_exprs : List ((Space × Int) × Expr))
    (dot_number_exprs : List (Space × Expr))
    (region : Region) (condition : Condition) : List Constraint :=
  let region_string := abbreviate_region region
  match condition with
  | .number number =>
    [⟨"number_condition__".data ++ region_string,
      lpSum (region.spaces.map (fun space => getExpr dot_number_exprs space)),
      .eq, number⟩]
  | .equal =>
    (region.spaces.zip region.spaces.tail).map (fun ss =>
      ⟨"equal_condition__".data ++ region_string ++ "__".data
          ++ ss.1.str ++ "__".data ++ ss.2.str,
        (getExpr dot_number_exprs ss.1).addExpr
          (Expr.scale (-1) (getExpr dot_number_exprs ss.2)),
        .eq, 0⟩)
  | .notEqual =>
    dots.map (fun dot =>
      ⟨"not_equal_condition__".data ++ region_string ++ "__".data
          ++ pyStrInt dot,
        lpSum (region.spaces.map (fun space =>
          getExpr dot_pattern_exprs (space, dot))),
        .le, 1⟩)
  | .greaterThan number =>
    [⟨"greater_than_condition__".data ++ region_string,
      lpSum (region.spaces.map (fun space => getExpr dot_number_exprs space)),
      .ge, number + 1⟩]
  | .lessThan number =>
    [⟨"less_than_condition__".data ++ region_string,
      lpSum (region.spaces.map (fun space => getExpr dot_number_exprs space)),
      .le, number - 1⟩]

/-- The result of `formulate_ilp` (`PipsILP` in the source): the problem's
named constraints plus the variable and expression tables. -/
structure PipsILP where
  problem : List Constraint
  placement_vars : List ((Domino × Spot) × Str)
  dot_pattern_exprs : List ((Space × Int) × Expr)
  dot_number_exprs : List (Space × Expr)
deriving Repr

/-- Model of `formulate_ilp`: build the variable and expression tables, then the
three constraint families in source order — one `use_domino` equation
per domino, one `cant_overlap` equation per space, then the per-region
condition constraints over the sorted regions. -/
def formulate_ilp (p : Puzzle) : PipsILP :=
  let spots := get_sorted_spots p
  let placement_vars := create_placement_vars p spots
  let dots := get_sorted_dots p
  let dot_pattern_exprs := create_dot_pattern_exprs p spots dots
  let dot_number_exprs := create_dot_number_exprs p dot_pattern_exprs
  let use_domino := p.dominoes.map (fun domino =>
    (⟨"use_domino__".data ++ domino.str,
      lpSum (spots.map (fun spot =>
        Expr.scale 1 [(placementVarName domino spot, 1)])),
      .eq, 1⟩ : Constraint))
  let cant_overlap := p.iter_sorted_spaces.map (fun space =>
    (⟨"cant_overlap__".data ++ space.str,
      lpSum (dots.map (fun dot =>
        Expr.scale 1 (getExpr dot_pattern_exprs (space, dot)))),
      .eq, 1⟩ : Constraint))
  let region_conditions := p.iter_sorted_regions.flatMap (fun region =>
    region_constraints dots dot_pattern_exprs dot_number_exprs
      region (p.get_condition region))
  ⟨use_domino ++ cant_overlap ++ region_conditions,
    placement_vars, dot_pattern_exprs, dot_number_exprs⟩

/-! ### Derived notions and concrete fixtures used in the theorems -/

/-- The constructible instances of each condition variant: `Number` and
`GreaterThan` require a non-negative number, `LessThan` a positive one
(their `__post_init__` checks); `Equal` and `NotEqual` carry no payload. -/
def Constructible : Condition → Prop
  | .number n => 0 ≤ n
  | .equal => True
  | .notEqual => True
  | .greaterThan n => 0 ≤ n
  | .lessThan n => 0 < n

/-- Whether a result is a raised `ValueError`. -/
def isValueError {α : Type} : Except PyError α → Bool
  | .error (.valueError _) => true
  | _ => false

/-- The dot-number expression table `formulate_ilp` builds for a puzzle
(the composition of its helper calls). -/
def puzzleDotNumberExprs (p : Puzzle) : List (Space × Expr) :=
  create_dot_number_exprs p
    (create_dot_pattern_exprs p (get_sorted_spots p) (get_sorted_dots p))

/-- The sum of the dot-number expressions over a region's spaces, as the
region-condition constraints compute it. -/
def regionDotNumberSum (p : Puzzle) (r : Region) : Expr :=
  lpSum (r.spaces.map (fun space => getExpr (puzzleDotNumberExprs p) space))

/-- The single constraint emitted for a `GreaterThan(n)` region:
region dot-number sum `≥ n + 1`. -/
def gtConstraint (p : Puzzle) (r : Region) (n : Int) : Constraint :=
  ⟨"greater_than_condition__".data ++ abbreviate_region r,
    regionDotNumberSum p r, .ge, n + 1⟩

/-- The single constraint emitted for a `LessThan(n)` region:
region dot-number sum `≤ n - 1`. -/
def ltConstraint (p : Puzzle) (r : Region) (n : Int) : Constraint :=
  ⟨"less_than_condition__".data ++ abbreviate_region r,
    regionDotNumberSum p r, .le, n - 1⟩

/-- The two cells of the end-to-end example: a 1×2 board. -/
def s11 : Space := ⟨1, 1⟩

/-- Second cell of the 1×2 example board. -/
def s12 : Space := ⟨1, 2⟩

/-- The example tile `34`. -/
def d34 : Domino := ⟨(3, 4), false⟩

/-- The example's single region: both cells of the 1×2 board. -/
def exampleRegion : Region := ⟨[s11, s12]⟩

/-- The example board: two adjacent cells forming one region with
condition `7`. -/
def exampleBoard : Board := ⟨[s11, s12], [(exampleRegion, .number 7)]⟩

/-- The end-to-end example puzzle: the 1×2 board plus the single tile
`34`. -/
def examplePuzzle : Puzzle := ⟨exampleBoard, [d34]⟩

/-- The placement variable of tile `34` on the spot `(1,1):(1,2)`. -/
def exVar1 : Str := placementVarName d34 ⟨(s11, s12)⟩

/-- The placement variable of tile `34` on the spot `(1,2):(1,1)`. -/
def exVar2 : Str := placementVarName d34 ⟨(s12, s11)⟩

/-- A 1×4 board with a `GreaterThan 2` region on its left half and a
`LessThan 9` region on its right half (fixture for the sum-bound
constraint claims). -/
def gtLtBoard : Board :=
  ⟨[⟨1, 1⟩, ⟨1, 2⟩, ⟨1, 3⟩, ⟨1, 4⟩],
    [(⟨[⟨1, 1⟩, ⟨1, 2⟩]⟩, .greaterThan 2), (⟨[⟨1, 3⟩, ⟨1, 4⟩]⟩, .lessThan 9)]⟩

/-- A puzzle on `gtLtBoard` with the two tiles `34` and `12`. -/
def gtLtPuzzle : Puzzle := ⟨gtLtBoard, [⟨(3, 4), false⟩, ⟨(1, 2), false⟩]⟩

/-! ### Helper lemmas: decimal printing and Python `int()` parsing -/

theorem pyIsDigit_ofNat (d : Nat) (hd : d < 10) :
    pyIsDigit (Char.ofNat (48 + d)) = true := by
  interval_cases d <;> decide

theorem digitVal_ofNat (d : Nat) (hd : d < 10) :
    digitVal (Char.ofNat (48 + d)) = d := by
  interval_cases d <;> decide

theorem decCharsAux_digits (fuel : Nat) :
    ∀ n, ∀ c ∈ decCharsAux fuel n, pyIsDigit c = true := by
  induction fuel with
  | zero => intro n c hc; simp [decCharsAux] at hc
  | succ fuel ih =>
    intro n c hc
    by_cases hn : n = 0
    · simp [decCharsAux, hn] at hc
    · rw [decCharsAux, if_neg hn] at hc
      rcases List.mem_append.mp hc with h | h
      · exact ih _ c h
      · rcases List.mem_singleton.mp h with rfl
        exact pyIsDigit_ofNat _ (Nat.mod_lt _ (by norm_num))

theorem decCharsAux_foldl (fuel : Nat) :
    ∀ n a, n ≤ fuel →
      List.foldl (fun x c => 10 * x + digitVal c) a (decCharsAux fuel n)
        = a * 10 ^ (decCharsAux fuel n).length + n := by
  induction fuel with
  | zero =>
    intro n a hn
    interval_cases n
    simp [decCharsAux]
  | succ fuel ih =>
    intro n a hn
    by_cases h0 : n = 0
    · simp [decCharsAux, h0]
    · rw [decCharsAux, if_neg h0]
      have hdiv : n / 10 ≤ fuel := by
        have : n / 10 < n := Nat.div_lt_self (Nat.pos_of_ne_zero h0) (by norm_num)
        omega
      rw [List.foldl_append, List.length_append]
      rw [ih (n / 10) a hdiv]
      simp only [List.foldl_cons, List.foldl_nil, List.length_singleton]
      rw [digitVal_ofNat _ (Nat.mod_lt _ (by norm_num))]
      have hm := Nat.div_add_mod n 10
      rw [pow_succ]
      ring_nf
      omega

theorem decChars_ne_nil (n : Nat) : decChars n ≠ [] := by
  by_cases h0 : n = 0
  · simp [decChars, h0]
  · rw [decChars, if_neg h0, decCharsAux, if_neg h0]
    simp

theorem decChars_digits (n : Nat) :
    ∀ c ∈ decChars n, pyIsDigit c = true := by
  by_cases h0 : n = 0
  · intro c hc; simp [decChars, h0] at hc; subst hc; decide
  · rw [decChars, if_neg h0]
    exact decCharsAux_digits _ _

theorem foldl_decChars (n : Nat) :
    List.foldl (fun x c => 10 * x + digitVal c) 0 (decChars n) = n := by
  by_cases h0 : n = 0
  · simp [decChars, h0]; decide
  · rw [decChars, if_neg h0, decCharsAux_foldl (n + 1) n 0 (by omega)]
    simp

theorem puAux_cons (acc : Nat) (c : Char) (rest : Str)
    (hc : pyIsDigit c = true) :
    puAux acc (c :: rest) = puAux (10 * acc + digitVal c) rest := by
  rw [puAux.eq_def]
  simp [hc]

theorem puAux_of_digits (l : Str) (h : ∀ c ∈ l, pyIsDigit c = true) :
    ∀ acc, puAux acc l
      = some (List.foldl (fun x c => 10 * x + digitVal c) acc l) := by
  induction l with
  | nil => intro acc; simp [puAux]
  | cons c rest ih =>
    intro acc
    have hc : pyIsDigit c = true := h c (by simp)
    rw [puAux_cons acc c rest hc, List.foldl_cons]
    exact ih (fun x hx => h x (by simp [hx])) _

theorem parseDigitsPy_of_digits (l : Str) (hne : l ≠ [])
    (h : ∀ c ∈ l, pyIsDigit c = true) :
    parseDigitsPy l
      = some (List.foldl (fun x c => 10 * x + digitVal c) 0 l) := by
  match l, hne with
  | c :: rest, _ =>
    have hc : pyIsDigit c = true := h c (by simp)
    rw [parseDigitsPy, if_pos hc,
      puAux_of_digits rest (fun x hx => h x (by simp [hx]))]
    simp

theorem parseDigitsPy_decChars (n : Nat) :
    parseDigitsPy (decChars n) = some n := by
  rw [parseDigitsPy_of_digits (decChars n) (decChars_ne_nil n)
    (decChars_digits n), foldl_decChars]

theorem pyIsSpace_of_digit (c : Char) (h : pyIsDigit c = true) :
    pyIsSpace c = false := by
  have hb : 48 ≤ c.toNat ∧ c.toNat ≤ 57 := by
    simpa [pyIsDigit] using h
  rw [pyIsSpace]
  have hs : ∀ d : Char, c = d → (48 ≤ d.toNat ∧ d.toNat ≤ 57) → True := by
    intro _ _ _; trivial
  simp only [Bool.or_eq_false_iff, decide_eq_false_iff_not]
  refine ⟨⟨⟨⟨⟨?_, ?_⟩, ?_⟩, ?_⟩, ?_⟩, ?_⟩ <;>
    (intro he; rw [he] at hb; exact absurd hb (by decide))

theorem dropWhile_space_eq_self (l : Str)
    (h : ∀ c ∈ l, pyIsSpace c = false) : l.dropWhile pyIsSpace = l := by
  cases l with
  | nil => rfl
  | cons a l => simp [List.dropWhile_cons, h a (by simp)]

theorem pyStrip_of_no_space (l : Str)
    (h : ∀ c ∈ l, pyIsSpace c = false) : pyStrip l = l := by
  rw [pyStrip, dropWhile_space_eq_self l h,
    dropWhile_space_eq_self l.reverse
      (fun c hc => h c (List.mem_reverse.mp hc)),
    List.reverse_reverse]

theorem pyStrip_decChars (n : Nat) : pyStrip (decChars n) = decChars n :=
  pyStrip_of_no_space _
    (fun c hc => pyIsSpace_of_digit c (decChars_digits n c hc))

theorem pyInt_decChars (n : Nat) : pyInt (decChars n) = some (n : Int) := by
  obtain ⟨c, rest, hl⟩ := List.exists_cons_of_ne_nil (decChars_ne_nil n)
  have hc : pyIsDigit c = true := decChars_digits n c (by rw [hl]; simp)
  have hplus : ¬ c = '+' := by
    intro he; subst he; simp [pyIsDigit] at hc
  have hminus : ¬ c = '-' := by
    intro he; subst he; simp [pyIsDigit] at hc
  rw [pyInt.eq_def, pyStrip_decChars, hl]
  show pyIntCore c rest = some (n : Int)
  unfold pyIntCore
  rw [if_neg hplus, if_neg hminus, ← hl, parseDigitsPy_decChars]
  rfl

/-! ### Helper lemmas: the five condition parsers on canonical strings -/

theorem pyIsDigitStr_decChars (m : Nat) :
    pyIsDigitStr (decChars m) = true := by
  rw [pyIsDigitStr]
  have h1 : (decChars m).isEmpty = false := by
    cases hd : decChars m with
    | nil => exact absurd hd (decChars_ne_nil m)
    | cons c rest => rfl
  rw [h1]
  simp [List.all_eq_true]
  exact decChars_digits m

theorem number_maybe_parse_decChars (m : Nat) :
    Number.maybe_parse (decChars m) = some (.number (m : Int)) := by
  rw [Number.maybe_parse.eq_def, pyStrip_decChars, pyInt_decChars]
  simp [Int.not_lt.mpr (Int.natCast_nonneg m)]

theorem pyStrip_sym_decChars (sym : Char) (hs : pyIsSpace sym = false)
    (m : Nat) : pyStrip (sym :: decChars m) = sym :: decChars m := by
  refine pyStrip_of_no_space _ ?_
  intro c hc
  rcases List.mem_cons.mp hc with rfl | hc
  · exact hs
  · exact pyIsSpace_of_digit c (decChars_digits m c hc)

theorem pyInt_sym (sym : Char) (m : Nat)
    (hs : pyIsSpace sym = false) (hd : pyIsDigit sym = false)
    (hp : sym ≠ '+') (hm : sym ≠ '-') :
    pyInt (sym :: decChars m) = none := by
  rw [pyInt.eq_def, pyStrip_sym_decChars sym hs m]
  show pyIntCore sym (decChars m) = none
  unfold pyIntCore
  rw [if_neg hp, if_neg hm, parseDigitsPy.eq_def]
  simp [hd]

theorem number_maybe_parse_sym (sym : Char) (m : Nat)
    (hs : pyIsSpace sym = false) (hd : pyIsDigit sym = false)
    (hp : sym ≠ '+') (hm : sym ≠ '-') :
    Number.maybe_parse (sym :: decChars m) = none := by
  rw [Number.maybe_parse.eq_def, pyStrip_sym_decChars sym hs m,
    pyInt_sym sym m hs hd hp hm]

theorem equal_maybe_parse_sym (sym : Char) (m : Nat)
    (hs : pyIsSpace sym = false) (hne : sym ≠ '=') :
    Equal.maybe_parse (sym :: decChars m) = none := by
  have hcond : ¬ (sym :: decChars m = ['=']) := by
    intro h; injection h with h1 _; exact hne h1
  rw [Equal.maybe_parse, pyStrip_sym_decChars sym hs m, if_neg hcond]

theorem not_equal_maybe_parse_sym (sym : Char) (m : Nat)
    (hs : pyIsSpace sym = false) (hne : sym ≠ '=') :
    NotEqual.maybe_parse (sym :: decChars m) = none := by
  have hcond : ¬ (sym :: decChars m = ['=', '/', '=']) := by
    intro h; injection h with h1 _; exact hne h1
  rw [NotEqual.maybe_parse, pyStrip_sym_decChars sym hs m, if_neg hcond]

theorem gt_maybe_parse_gt (m : Nat) :
    GreaterThan.maybe_parse ('>' :: decChars m) = some (.greaterThan m) := by
  rw [GreaterThan.maybe_parse.eq_def, pyStrip_sym_decChars '>' (by decide) m]
  split
  · rename_i rest heq
    injection heq with h1 h2
    subst h2
    rw [if_pos (pyIsDigitStr_decChars m), pyInt_decChars]
    simp [Int.not_lt.mpr (Int.natCast_nonneg m)]
  · rename_i hmm
    exact absurd rfl (hmm (decChars m))

theorem lt_maybe_parse_lt (m : Nat) (hm : 0 < m) :
    LessThan.maybe_parse ('<' :: decChars m) = some (.lessThan m) := by
  rw [LessThan.maybe_parse.eq_def, pyStrip_sym_decChars '<' (by decide) m]
  split
  · rename_i rest heq
    injection heq with h1 h2
    subst h2
    rw [if_pos (pyIsDigitStr_decChars m), pyInt_decChars]
    have hc : ¬ ((m : Int) ≤ 0) := by omega
    simp [hc]
  · rename_i hmm
    exact absurd rfl (hmm (decChars m))

theorem gt_maybe_parse_other (c : Char) (l : Str) (hc : c ≠ '>')
    (hstrip : pyStrip (c :: l) = c :: l) :
    GreaterThan.maybe_parse (c :: l) = none := by
  rw [GreaterThan.maybe_parse.eq_def, hstrip]
  split
  · rename_i rest heq
    simp at heq
    exact absurd heq.1 hc
  · rfl

theorem lt_maybe_parse_other (c : Char) (l : Str) (hc : c ≠ '<')
    (hstrip : pyStrip (c :: l) = c :: l) :
    LessThan.maybe_parse (c :: l) = none := by
  rw [LessThan.maybe_parse.eq_def, hstrip]
  split
  · rename_i rest heq
    simp at heq
    exact absurd heq.1 hc
  · rfl

theorem equal_maybe_parse_decChars (m : Nat) :
    Equal.maybe_parse (decChars m) = none := by
  have hcond : ¬ (decChars m = ['=']) := by
    intro h
    have hd : pyIsDigit '=' = true := decChars_digits m '=' (by rw [h]; simp)
    exact absurd hd (by decide)
  rw [Equal.maybe_parse, pyStrip_decChars, if_neg hcond]

theorem not_equal_maybe_parse_decChars (m : Nat) :
    NotEqual.maybe_parse (decChars m) = none := by
  have hcond : ¬ (decChars m = ['=', '/', '=']) := by
    intro h
    have hd : pyIsDigit '=' = true := decChars_digits m '=' (by rw [h]; simp)
    exact absurd hd (by decide)
  rw [NotEqual.maybe_parse, pyStrip_decChars, if_neg hcond]

theorem gt_maybe_parse_decChars (m : Nat) :
    GreaterThan.maybe_parse (decChars m) = none := by
  obtain ⟨c, rest, hl⟩ := List.exists_cons_of_ne_nil (decChars_ne_nil m)
  have hc : pyIsDigit c = true := decChars_digits m c (by rw [hl]; simp)
  have hcne : c ≠ '>' := by
    intro he; subst he; simp [pyIsDigit] at hc
  rw [hl]
  exact gt_maybe_parse_other c rest hcne (hl ▸ pyStrip_decChars m)

theorem lt_maybe_parse_decChars (m : Nat) :
    LessThan.maybe_parse (decChars m) = none := by
  obtain ⟨c, rest, hl⟩ := List.exists_cons_of_ne_nil (decChars_ne_nil m)
  have hc : pyIsDigit c = true := decChars_digits m c (by rw [hl]; simp)
  have hcne : c ≠ '<' := by
    intro he; subst he; simp [pyIsDigit] at hc
  rw [hl]
  exact lt_maybe_parse_other c rest hcne (hl ▸ pyStrip_decChars m)

/-! ### C3: round-tripping canonical terse strings -/

/-- C3: for every constructible condition variant instance `x`
(`Number(n)` with `n ≥ 0`, `Equal`, `NotEqual`, `GreaterThan(n)` with
`n ≥ 0`, `LessThan(n)` with `n > 0`), `parse_condition` applied to
`x.as_terse_string()` succeeds and returns a value equal to `x`. -/
theorem parse_terse_string_roundtrip (x : Condition) (hx : Constructible x) :
    parse_condition x.as_terse_string = .ok x := by
  cases x with
  | number n =>
    have hn : 0 ≤ n := hx
    have hterse : (Condition.number n).as_terse_string = decChars n.toNat := by
      rw [Condition.as_terse_string, pyStrInt, if_neg (not_lt.mpr hn)]
    rw [hterse, parse_condition.eq_def, number_maybe_parse_decChars]
    simp [Int.toNat_of_nonneg hn]
  | equal => decide
  | notEqual => decide
  | greaterThan n =>
    have hn : 0 ≤ n := hx
    have hterse : (Condition.greaterThan n).as_terse_string
        = '>' :: decChars n.toNat := by
      rw [Condition.as_terse_string, pyStrInt, if_neg (not_lt.mpr hn)]
    rw [hterse, parse_condition.eq_def,
      number_maybe_parse_sym '>' n.toNat (by decide) (by decide)
        (by decide) (by decide),
      equal_maybe_parse_sym '>' n.toNat (by decide) (by decide),
      not_equal_maybe_parse_sym '>' n.toNat (by decide) (by decide),
      gt_maybe_parse_gt]
    simp [Int.toNat_of_nonneg hn]
  | lessThan n =>
    have hn : 0 < n := hx
    have hterse : (Condition.lessThan n).as_terse_string
        = '<' :: decChars n.toNat := by
      rw [Condition.as_terse_string, pyStrInt, if_neg (not_lt.mpr (le_of_lt hn))]
    have hstrip : pyStrip ('<' :: decChars n.toNat)
        = '<' :: decChars n.toNat :=
      pyStrip_sym_decChars '<' (by decide) n.toNat
    rw [hterse, parse_condition.eq_def,
      number_maybe_parse_sym '<' n.toNat (by decide) (by decide)
        (by decide) (by decide),
      equal_maybe_parse_sym '<' n.toNat (by decide) (by decide),
      not_equal_maybe_parse_sym '<' n.toNat (by decide) (by decide),
      gt_maybe_parse_other '<' (decChars n.toNat) (by decide) hstrip,
      lt_maybe_parse_lt n.toNat (by omega)]
    have : ((n.toNat : Int)) = n := Int.toNat_of_nonneg (le_of_lt hn)
    simp [this]

/-- Witness for C3 at the concrete instance `Number(7)`. -/
theorem parse_terse_string_roundtrip_witness :
    Constructible (Condition.number 7) ∧
      parse_condition (Condition.number 7).as_terse_string
        = .ok (Condition.number 7) :=
  ⟨show (0 : Int) ≤ 7 by decide,
    parse_terse_string_roundtrip (Condition.number 7)
      (show (0 : Int) ≤ 7 by decide)⟩

/-! ### C4: the `Number` grammar accepts a signed integer -/

/-- C4 counterexample: the claim states that `Number.maybe_parse`
returns `None` on any input whose trimmed form contains a sign
character, in particular `'+5'`; in fact Python's `int('+5')` succeeds,
so the parser returns `Number(5)`. -/
theorem number_maybe_parse_accepts_plus5 :
    Number.maybe_parse "+5".data ≠ none ∧
      Number.maybe_parse "+5".data = some (.number 5) := by
  constructor
  · decide
  · decide

/-! Helper lemmas for the all-inputs separation: `pyStrip` is
idempotent, and each variant's acceptance forces a distinctive shape on
the stripped input (head `'='`, `'>'`, `'<'`, or a sign/digit). -/

theorem dropWhile_shape (p : Char → Bool) (l : Str) :
    l.dropWhile p = [] ∨ ∃ c r, l.dropWhile p = c :: r ∧ p c = false := by
  induction l with
  | nil => exact Or.inl rfl
  | cons a l ih =>
    cases hpa : p a with
    | true =>
      rw [List.dropWhile_cons, hpa, if_pos rfl]
      exact ih
    | false =>
      rw [List.dropWhile_cons, hpa, if_neg Bool.false_ne_true]
      exact Or.inr ⟨a, l, rfl, hpa⟩

theorem dropWhile_append_last (p : Char → Bool) (c : Char)
    (hc : p c = false) :
    ∀ u : Str, ∃ v, List.dropWhile p (u ++ [c]) = v ++ [c] := by
  intro u
  induction u with
  | nil =>
    refine ⟨[], ?_⟩
    simp [List.dropWhile_cons, hc]
  | cons x u ih =>
    obtain ⟨v, hv⟩ := ih
    cases hpx : p x with
    | true =>
      exact ⟨v, by rw [List.cons_append, List.dropWhile_cons, hpx,
        if_pos rfl, hv]⟩
    | false =>
      exact ⟨x :: u, by rw [List.cons_append, List.dropWhile_cons, hpx,
        if_neg Bool.false_ne_true]⟩

theorem pyStrip_eq_self (t : Str)
    (h1 : t.dropWhile pyIsSpace = t)
    (h2 : t.reverse.dropWhile pyIsSpace = t.reverse) :
    pyStrip t = t := by
  rw [pyStrip, h1, h2, List.reverse_reverse]

theorem pyStrip_idem (s : Str) : pyStrip (pyStrip s) = pyStrip s := by
  rcases dropWhile_shape pyIsSpace s with ha | ⟨c, r, ha, hc⟩
  · have h0 : pyStrip s = [] := by rw [pyStrip, ha]; rfl
    rw [h0]
    rfl
  · have hd1 : (s.dropWhile pyIsSpace).reverse = r.reverse ++ [c] := by
      rw [ha, List.reverse_cons]
    obtain ⟨v, hv⟩ := dropWhile_append_last pyIsSpace c hc r.reverse
    have hst : pyStrip s = c :: v.reverse := by
      rw [pyStrip, hd1, hv, List.reverse_append]
      rfl
    have hrev : (pyStrip s).reverse = v ++ [c] := by
      rw [hst, List.reverse_cons, List.reverse_reverse]
    refine pyStrip_eq_self (pyStrip s) ?_ ?_
    · rw [hst, List.dropWhile_cons, hc, if_neg Bool.false_ne_true]
    · rw [hrev]
      rcases dropWhile_shape pyIsSpace (r.reverse ++ [c]) with hb |
        ⟨d, w, hb, hdp⟩
      · rw [hv] at hb
        exact absurd hb (by simp)
      · rw [hv] at hb
        rw [hb, List.dropWhile_cons, hdp, if_neg Bool.false_ne_true]

theorem pyIntCore_none (c : Char) (rest : Str) (h1 : c ≠ '+')
    (h2 : c ≠ '-') (h3 : pyIsDigit c = false) :
    pyIntCore c rest = none := by
  unfold pyIntCore
  rw [if_neg h1, if_neg h2, parseDigitsPy.eq_def]
  simp [h3]

theorem number_none_of_head (s : Str) (c : Char) (r : Str)
    (hps : pyStrip s = c :: r) (h1 : c ≠ '+') (h2 : c ≠ '-')
    (h3 : pyIsDigit c = false) : Number.maybe_parse s = none := by
  have hint : pyInt (pyStrip s) = none := by
    rw [pyInt.eq_def, pyStrip_idem, hps]
    show pyIntCore c r = none
    exact pyIntCore_none c r h1 h2 h3
  rw [Number.maybe_parse.eq_def, hint]

theorem number_shape (s : Str) (h : Number.maybe_parse s ≠ none) :
    ∃ c r, pyStrip s = c :: r ∧
      (c = '+' ∨ c = '-' ∨ pyIsDigit c = true) := by
  cases hps : pyStrip s with
  | nil =>
    exfalso
    apply h
    have hint : pyInt (pyStrip s) = none := by
      rw [pyInt.eq_def, pyStrip_idem, hps]
    rw [Number.maybe_parse.eq_def, hint]
  | cons c r =>
    refine ⟨c, r, rfl, ?_⟩
    by_contra hcl
    push_neg at hcl
    obtain ⟨h1, h2, h3⟩ := hcl
    have h3f : pyIsDigit c = false := by
      cases hd : pyIsDigit c
      · rfl
      · exact absurd hd h3
    exact h (number_none_of_head s c r hps h1 h2 h3f)

theorem equal_shape (s : Str) (h : Equal.maybe_parse s ≠ none) :
    pyStrip s = ['='] := by
  by_cases hc : pyStrip s = ['=']
  · exact hc
  · exfalso
    apply h
    rw [Equal.maybe_parse, if_neg hc]

theorem not_equal_shape (s : Str) (h : NotEqual.maybe_parse s ≠ none) :
    pyStrip s = ['=', '/', '='] := by
  by_cases hc : pyStrip s = ['=', '/', '=']
  · exact hc
  · exfalso
    apply h
    rw [NotEqual.maybe_parse, if_neg hc]

theorem gt_shape (s : Str) (h : GreaterThan.maybe_parse s ≠ none) :
    ∃ r, pyStrip s = '>' :: r := by
  rw [GreaterThan.maybe_parse.eq_def] at h
  split at h
  · rename_i rest heq
    exact ⟨rest, heq⟩
  · exact absurd rfl h

theorem lt_shape (s : Str) (h : LessThan.maybe_parse s ≠ none) :
    ∃ r, pyStrip s = '<' :: r := by
  rw [LessThan.maybe_parse.eq_def] at h
  split at h
  · rename_i rest heq
    exact ⟨rest, heq⟩
  · exact absurd rfl h

theorem equal_none_of_ne (s : Str) (h : pyStrip s ≠ ['=']) :
    Equal.maybe_parse s = none := by
  rw [Equal.maybe_parse, if_neg h]

theorem not_equal_none_of_ne (s : Str) (h : pyStrip s ≠ ['=', '/', '=']) :
    NotEqual.maybe_parse s = none := by
  rw [NotEqual.maybe_parse, if_neg h]

theorem gt_none_of_shape (s : Str) (h : ∀ r, pyStrip s ≠ '>' :: r) :
    GreaterThan.maybe_parse s = none := by
  rw [GreaterThan.maybe_parse.eq_def]
  split
  · rename_i rest heq
    exact absurd heq (h rest)
  · rfl

theorem lt_none_of_shape (s : Str) (h : ∀ r, pyStrip s ≠ '<' :: r) :
    LessThan.maybe_parse s = none := by
  rw [LessThan.maybe_parse.eq_def]
  split
  · rename_i rest heq
    exact absurd heq (h rest)
  · rfl

theorem sign_or_digit_head (c : Char)
    (hcl : c = '+' ∨ c = '-' ∨ pyIsDigit c = true) :
    c ≠ '=' ∧ c ≠ '>' ∧ c ≠ '<' := by
  rcases hcl with rfl | rfl | hd
  · exact ⟨by decide, by decide, by decide⟩
  · exact ⟨by decide, by decide, by decide⟩
  · refine ⟨?_, ?_, ?_⟩ <;> (intro he; subst he; exact absurd hd (by decide))

/-- C4 (amended): each condition variant's parser accepts only its own
grammar, and no variant's grammar accepts another variant's input — for
every input string, at most one of the five `maybe_parse` functions
succeeds — but the `Sum` variant's grammar is Python's `int()` literal,
which permits an optional leading sign, so `Number.maybe_parse('+5')`
returns `Number(5)` rather than `None`. -/
theorem condition_grammar_separation (s : Str) :
    (Number.maybe_parse "+5".data = some (.number 5)) ∧
    (Number.maybe_parse s ≠ none →
      Equal.maybe_parse s = none ∧ NotEqual.maybe_parse s = none ∧
      GreaterThan.maybe_parse s = none ∧ LessThan.maybe_parse s = none) ∧
    (Equal.maybe_parse s ≠ none →
      Number.maybe_parse s = none ∧ NotEqual.maybe_parse s = none ∧
      GreaterThan.maybe_parse s = none ∧ LessThan.maybe_parse s = none) ∧
    (NotEqual.maybe_parse s ≠ none →
      Number.maybe_parse s = none ∧ Equal.maybe_parse s = none ∧
      GreaterThan.maybe_parse s = none ∧ LessThan.maybe_parse s = none) ∧
    (GreaterThan.maybe_parse s ≠ none →
      Number.maybe_parse s = none ∧ Equal.maybe_parse s = none ∧
      NotEqual.maybe_parse s = none ∧ LessThan.maybe_parse s = none) ∧
    (LessThan.maybe_parse s ≠ none →
      Number.maybe_parse s = none ∧ Equal.maybe_parse s = none ∧
      NotEqual.maybe_parse s = none ∧ GreaterThan.maybe_parse s = none) := by
  refine ⟨by decide, ?_, ?_, ?_, ?_, ?_⟩
  · intro h
    obtain ⟨c, r, hps, hcl⟩ := number_shape s h
    obtain ⟨he, hg, hl⟩ := sign_or_digit_head c hcl
    refine ⟨?_, ?_, ?_, ?_⟩
    · refine equal_none_of_ne s ?_
      rw [hps]
      intro hx
      injection hx with h1 _
      exact he h1
    · refine not_equal_none_of_ne s ?_
      rw [hps]
      intro hx
      injection hx with h1 _
      exact he h1
    · refine gt_none_of_shape s ?_
      intro r2 hx
      rw [hps] at hx
      injection hx with h1 _
      exact hg h1
    · refine lt_none_of_shape s ?_
      intro r2 hx
      rw [hps] at hx
      injection hx with h1 _
      exact hl h1
  · intro h
    have hps := equal_shape s h
    refine ⟨number_none_of_head s '=' [] hps (by decide) (by decide)
      (by decide), not_equal_none_of_ne s (by rw [hps]; decide), ?_, ?_⟩
    · refine gt_none_of_shape s ?_
      intro r2 hx
      rw [hps] at hx
      injection hx with h1 _
      exact absurd h1 (by decide)
    · refine lt_none_of_shape s ?_
      intro r2 hx
      rw [hps] at hx
      injection hx with h1 _
      exact absurd h1 (by decide)
  · intro h
    have hps := not_equal_shape s h
    refine ⟨number_none_of_head s '=' ['/', '='] hps (by decide) (by decide)
      (by decide), equal_none_of_ne s (by rw [hps]; decide), ?_, ?_⟩
    · refine gt_none_of_shape s ?_
      intro r2 hx
      rw [hps] at hx
      injection hx with h1 _
      exact absurd h1 (by decide)
    · refine lt_none_of_shape s ?_
      intro r2 hx
      rw [hps] at hx
      injection hx with h1 _
      exact absurd h1 (by decide)
  · intro h
    obtain ⟨r, hps⟩ := gt_shape s h
    refine ⟨number_none_of_head s '>' r hps (by decide) (by decide)
      (by decide), ?_, ?_, ?_⟩
    · refine equal_none_of_ne s ?_
      rw [hps]
      intro hx
      injection hx with h1 _
      exact absurd h1 (by decide)
    · refine not_equal_none_of_ne s ?_
      rw [hps]
      intro hx
      injection hx with h1 _
      exact absurd h1 (by decide)
    · refine lt_none_of_shape s ?_
      intro r2 hx
      rw [hps] at hx
      injection hx with h1 _
      exact absurd h1 (by decide)
  · intro h
    obtain ⟨r, hps⟩ := lt_shape s h
    refine ⟨number_none_of_head s '<' r hps (by decide) (by decide)
      (by decide), ?_, ?_, ?_⟩
    · refine equal_none_of_ne s ?_
      rw [hps]
      intro hx
      injection hx with h1 _
      exact absurd h1 (by decide)
    · refine not_equal_none_of_ne s ?_
      rw [hps]
      intro hx
      injection hx with h1 _
      exact absurd h1 (by decide)
    · refine gt_none_of_shape s ?_
      intro r2 hx
      rw [hps] at hx
      injection hx with h1 _
      exact absurd h1 (by decide)

/-- Witness for C4's amended theorem at the concrete input `" = "`,
which `Equal` accepts and every other variant must therefore reject. -/
theorem condition_grammar_separation_witness :
    Equal.maybe_parse " = ".data ≠ none ∧
      Number.maybe_parse " = ".data = none ∧
      NotEqual.maybe_parse " = ".data = none ∧
      GreaterThan.maybe_parse " = ".data = none ∧
      LessThan.maybe_parse " = ".data = none :=
  ⟨by decide, (condition_grammar_separation " = ".data).2.2.1 (by decide)⟩

/-! ### C7: board layout normalization on the concrete example -/

/-- C7: `parse_board_layout` applied to the layout string
`"\n\n AAB\n CDD#\n"` records each non-whitespace character at its
1-indexed line/column position and then shifts all coordinates so the
minimum occupied row and column become 1, yielding exactly the mapping
`(1,1)↦'A', (1,2)↦'A', (1,3)↦'B', (2,1)↦'C', (2,2)↦'D', (2,3)↦'D',
(2,4)↦'#'` (the Python dict is modelled as an association list in
insertion order, which is row-major scan order). -/
theorem parse_board_layout_example :
    parse_board_layout "\n\n AAB\n CDD#\n".data =
      .ok [(⟨1, 1⟩, 'A'), (⟨1, 2⟩, 'A'), (⟨1, 3⟩, 'B'),
           (⟨2, 1⟩, 'C'), (⟨2, 2⟩, 'D'), (⟨2, 3⟩, 'D'), (⟨2, 4⟩, '#')] := by
  decide

/-! ### C8: `shift_by` with no deltas raises `TypeError` -/

/-- C8 counterexample: the claim states the no-delta failure of
`shift_by` is raised as a value error; in fact the source raises
`TypeError('must specify at least one of delta_r or delta_c')` (and its
own test suite asserts `TypeError`). -/
theorem shift_by_no_delta_not_value_error :
    isValueError (Space.shift_by ⟨1, 1⟩ none none) = false ∧
      Space.shift_by ⟨1, 1⟩ none none =
        .error (.typeError
          "must specify at least one of delta_r or delta_c".data) := by
  decide

/-- C8 (amended): for every space, calling `shift_by` with neither
`delta_r` nor `delta_c` supplied fails — but the failure is raised as a
`TypeError` (the Python convention for a bad call), not a `ValueError`. -/
theorem shift_by_requires_some_delta (s : Space) :
    Space.shift_by s none none =
      .error (.typeError
        "must specify at least one of delta_r or delta_c".data) := by
  rw [Space.shift_by, if_pos ⟨rfl, rfl⟩]

/-- Witness for C8's amended theorem at the concrete space `(2, 3)`. -/
theorem shift_by_requires_some_delta_witness :
    Space.shift_by ⟨2, 3⟩ none none =
      .error (.typeError
        "must specify at least one of delta_r or delta_c".data) :=
  shift_by_requires_some_delta ⟨2, 3⟩

/-! ### C10: a layout with no non-whitespace character raises -/

theorem splitNl_chars (l : Str) :
    ∀ part ∈ splitNl l, ∀ c ∈ part, c ∈ l := by
  induction l with
  | nil =>
    intro part hp c hc
    simp [splitNl] at hp
    subst hp
    simp at hc
  | cons a rest ih =>
    intro part hp c hc
    simp only [splitNl] at hp
    by_cases ha : a = '\n'
    · rw [if_pos ha] at hp
      rcases List.mem_cons.mp hp with rfl | hp
      · simp at hc
      · exact List.mem_cons_of_mem a (ih part hp c hc)
    · rw [if_neg ha] at hp
      cases hrest : splitNl rest with
      | nil =>
        rw [hrest] at hp
        have hpa : part = [a] := by simpa using hp
        subst hpa
        have hca : c = a := by simpa using hc
        subst hca
        exact List.mem_cons_self _ _
      | cons l0 ls =>
        rw [hrest] at hp
        rcases List.mem_cons.mp hp with rfl | hp
        · rcases List.mem_cons.mp hc with rfl | hc
          · exact List.mem_cons_self _ _
          · exact List.mem_cons_of_mem a
              (ih l0 (hrest ▸ List.mem_cons_self l0 ls) c hc)
        · exact List.mem_cons_of_mem a
            (ih part (hrest ▸ List.mem_cons_of_mem l0 hp) c hc)

theorem pySplitlines_chars (s : Str) :
    ∀ part ∈ pySplitlines s, ∀ c ∈ part, c ∈ s := by
  intro part hp c hc
  rw [pySplitlines] at hp
  by_cases hs : s = []
  · rw [if_pos hs] at hp; simp at hp
  · rw [if_neg hs] at hp
    by_cases hlast : s.getLast? = some '\n'
    · rw [if_pos hlast] at hp
      exact splitNl_chars s part ((List.dropLast_sublist _).subset hp) c hc
    · rw [if_neg hlast] at hp
      exact splitNl_chars s part hp c hc

theorem scanLine_all_space (line : Str)
    (h : ∀ c ∈ line, pyIsSpace c = true) :
    ∀ r c0, scanLine r c0 line = [] := by
  induction line with
  | nil => intro r c0; rfl
  | cons ch rest ih =>
    intro r c0
    have hch : pyIsSpace ch = true := h ch (by simp)
    simp only [scanLine, if_pos hch]
    exact ih (fun x hx => h x (by simp [hx])) r (c0 + 1)

theorem scanLines_all_space (lines : List Str)
    (h : ∀ line ∈ lines, ∀ c ∈ line, pyIsSpace c = true) :
    ∀ r, scanLines r lines = [] := by
  induction lines with
  | nil => intro r; rfl
  | cons line rest ih =>
    intro r
    simp only [scanLines]
    rw [scanLine_all_space line (h line (by simp)) r 1,
      ih (fun x hx => h x (by simp [hx])) (r + 1)]
    rfl

/-- C10: for every layout string containing no non-whitespace character
(including the empty string), `parse_board_layout` fails by raising an
exception (the `min()` over the empty set of recorded spaces raises
`ValueError`) rather than returning an empty mapping. -/
theorem parse_board_layout_all_whitespace (s : Str)
    (h : ∀ c ∈ s, pyIsSpace c = true) :
    parse_board_layout s =
      .error (.valueError "min() arg is an empty sequence".data) := by
  have hlines : scanLines 1 (pySplitlines s) = [] :=
    scanLines_all_space (pySplitlines s)
      (fun line hl c hc => h c (pySplitlines_chars s line hl c hc)) 1
  simp only [parse_board_layout, hlines]

/-- Witness for C10 at the concrete all-whitespace layout `" \n "`. -/
theorem parse_board_layout_all_whitespace_witness :
    (∀ c ∈ " \n ".data, pyIsSpace c = true) ∧
      parse_board_layout " \n ".data =
        .error (.valueError "min() arg is an empty sequence".data) :=
  ⟨by decide, parse_board_layout_all_whitespace " \n ".data (by decide)⟩

/-! ### C6: characterizing `Puzzle` construction -/

theorem foldl_add_two (ds : List Domino) :
    ∀ a : Nat, ds.foldl (fun acc _ => acc + 2) a = a + 2 * ds.length := by
  induction ds with
  | nil => intro a; simp
  | cons d rest ih =>
    intro a
    rw [List.foldl_cons, ih (a + 2), List.length_cons]
    ring

theorem dedup_length_lt_iff {α : Type} [DecidableEq α] (l : List α) :
    l.dedup.length < l.length ↔ ¬ l.Nodup := by
  constructor
  · intro hlt hnodup
    rw [List.Nodup.dedup hnodup] at hlt
    exact lt_irrefl _ hlt
  · intro hnodup
    have hle : l.dedup.length ≤ l.length := (List.dedup_sublist l).length_le
    rcases lt_or_eq_of_le hle with hlt | heq
    · exact hlt
    · exact absurd ((List.dedup_sublist l).eq_of_length heq ▸
        List.nodup_dedup l) hnodup

/-- C6: for every board and tile list, `Puzzle` construction fails iff
some two tiles in the list are equal (Python domino equality compares
only the sorted `dots` pair) or the total tile half-count (2 per tile)
differs from the board's space count; on success the puzzle retains the
tile list in its original order. -/
theorem puzzle_init_characterization (b : Board) (ds : List Domino) :
    ((∃ pz, Puzzle.init b ds = .ok pz) ↔
      ((ds.map (fun d => d.dots)).Nodup ∧ 2 * ds.length = b.num_spaces)) ∧
    (∀ pz, Puzzle.init b ds = .ok pz → pz.board = b ∧ pz.dominoes = ds) := by
  unfold Puzzle.init
  have hmaplen : (ds.map (fun d => d.dots)).length = ds.length :=
    List.length_map _ _
  by_cases hdup : (ds.map (fun d => d.dots)).dedup.length < ds.length
  · rw [if_pos hdup]
    have hnn : ¬ (ds.map (fun d => d.dots)).Nodup :=
      (dedup_length_lt_iff _).mp (by rw [hmaplen]; exact hdup)
    refine ⟨⟨?_, ?_⟩, ?_⟩
    · rintro ⟨pz, hpz⟩
      exact Except.noConfusion hpz
    · rintro ⟨hnodup, _⟩
      exact absurd hnodup hnn
    · intro pz hpz
      exact Except.noConfusion hpz
  · rw [if_neg hdup]
    have hnodup : (ds.map (fun d => d.dots)).Nodup := by
      by_contra hnn
      exact hdup (by rw [← hmaplen] at *; exact (dedup_length_lt_iff _).mpr hnn)
    simp only [foldl_add_two ds 0, Nat.zero_add]
    by_cases hcnt : 2 * ds.length = b.num_spaces
    · rw [if_neg (by omega : ¬ (2 * ds.length ≠ b.num_spaces))]
      refine ⟨⟨fun _ => ⟨hnodup, hcnt⟩, fun _ => ⟨⟨b, ds⟩, rfl⟩⟩, ?_⟩
      intro pz hpz
      cases hpz
      exact ⟨rfl, rfl⟩
    · rw [if_pos hcnt]
      refine ⟨⟨?_, ?_⟩, ?_⟩
      · rintro ⟨pz, hpz⟩
        exact Except.noConfusion hpz
      · rintro ⟨_, hc⟩
        exact absurd hc hcnt
      · intro pz hpz
        exact Except.noConfusion hpz

/-- Witness for C6: the example 1×2 puzzle construction succeeds with
its tile list retained. -/
theorem puzzle_init_characterization_witness :
    Puzzle.init exampleBoard [d34] = .ok examplePuzzle ∧
      examplePuzzle.board = exampleBoard ∧ examplePuzzle.dominoes = [d34] :=
  ⟨by decide,
    (puzzle_init_characterization exampleBoard [d34]).2 examplePuzzle
      (by decide)⟩

/-! ### C9: the spot list is closed under orientation reversal -/

theorem mem_neighbors_symm (a b : Space) :
    a ∈ Space.neighbors b ↔ b ∈ Space.neighbors a := by
  obtain ⟨ar, ac⟩ := a
  obtain ⟨br, bc⟩ := b
  simp [Space.neighbors, Space.mk.injEq]
  omega

theorem mem_get_sorted_spots (p : Puzzle) (x y : Space) :
    (⟨(x, y)⟩ : Spot) ∈ get_sorted_spots p ↔
      (x ∈ p.board.spaces ∧ y ∈ p.board.spaces ∧ y ∈ Space.neighbors x) := by
  unfold get_sorted_spots
  rw [List.Perm.mem_iff (List.perm_insertionSort _ _), List.mem_dedup]
  simp only [List.mem_flatMap, List.mem_filterMap]
  constructor
  · rintro ⟨space, hsp, nb, hnb, hif⟩
    by_cases hmem : nb ∈ p.board.spaces
    · rw [if_pos hmem] at hif
      injection hif with h
      injection h with h2
      injection h2 with hx hy
      subst hx; subst hy
      refine ⟨?_, hmem, hnb⟩
      have : p.iter_sorted_spaces = List.insertionSort Space.le p.board.spaces
        := rfl
      rw [this, List.Perm.mem_iff (List.perm_insertionSort _ _)] at hsp
      exact hsp
    · rw [if_neg hmem] at hif
      exact Option.noConfusion hif
  · rintro ⟨hx, hy, hn⟩
    refine ⟨x, ?_, y, hn, by rw [if_pos hy]⟩
    show x ∈ List.insertionSort Space.le p.board.spaces
    rw [List.Perm.mem_iff (List.perm_insertionSort _ _)]
    exact hx

theorem get_sorted_spots_nodup (p : Puzzle) :
    (get_sorted_spots p).Nodup := by
  unfold get_sorted_spots
  exact (List.perm_insertionSort _ _).nodup_iff.mpr (List.nodup_dedup _)

/-- C9: for every puzzle, the spot list returned by `get_sorted_spots`
is closed under reversal — `Spot(s1, s2)` is in the list iff
`Spot(s2, s1)` is — and every unordered adjacent pair of board spaces
contributes exactly two entries, one per orientation (each with
multiplicity one). -/
theorem get_sorted_spots_reversal_closed (p : Puzzle) (s1 s2 : Space) :
    ((⟨(s1, s2)⟩ : Spot) ∈ get_sorted_spots p ↔
      (⟨(s2, s1)⟩ : Spot) ∈ get_sorted_spots p) ∧
    (s1 ∈ p.board.spaces → s2 ∈ p.board.spaces → s2 ∈ Space.neighbors s1 →
      (get_sorted_spots p).count ⟨(s1, s2)⟩ = 1 ∧
      (get_sorted_spots p).count ⟨(s2, s1)⟩ = 1) := by
  constructor
  · rw [mem_get_sorted_spots, mem_get_sorted_spots,
      mem_neighbors_symm s1 s2]
    tauto
  · intro h1 h2 hn
    have hmem1 : (⟨(s1, s2)⟩ : Spot) ∈ get_sorted_spots p :=
      (mem_get_sorted_spots p s1 s2).mpr ⟨h1, h2, hn⟩
    have hmem2 : (⟨(s2, s1)⟩ : Spot) ∈ get_sorted_spots p :=
      (mem_get_sorted_spots p s2 s1).mpr
        ⟨h2, h1, (mem_neighbors_symm s1 s2).mpr hn⟩
    exact ⟨List.count_eq_one_of_mem (get_sorted_spots_nodup p) hmem1,
      List.count_eq_one_of_mem (get_sorted_spots_nodup p) hmem2⟩

/-- Witness for C9 on the example 1×2 puzzle at its adjacent pair. -/
theorem get_sorted_spots_reversal_closed_witness :
    s11 ∈ examplePuzzle.board.spaces ∧ s12 ∈ examplePuzzle.board.spaces ∧
      s12 ∈ Space.neighbors s11 ∧
      (get_sorted_spots examplePuzzle).count ⟨(s11, s12)⟩ = 1 ∧
      (get_sorted_spots examplePuzzle).count ⟨(s12, s11)⟩ = 1 :=
  ⟨by decide, by decide, by decide,
    (get_sorted_spots_reversal_closed examplePuzzle s11 s12).2
      (by decide) (by decide) (by decide)⟩

/-! ### C1: the end-to-end 1×2 example formulation -/

/-- C1 counterexample: on the 1×2 example puzzle, `get_sorted_spots`
returns two `Spot`s — the adjacent pair in both orientations — not
exactly one as the claim states. -/
theorem example_puzzle_two_spots :
    (get_sorted_spots examplePuzzle).length ≠ 1 ∧
      (get_sorted_spots examplePuzzle).length = 2 := by
  decide

/-- C1 (amended): for the 1×2 example puzzle (two adjacent cells in one
region with condition `7`, single tile `34`), the formulation produces
exactly two `Spot`s (the adjacent pair in each orientation), exactly two
placement variables, a tile-used constraint forcing those two placement
variables to sum to 1, and one region constraint requiring
dot-number(cell 1) + dot-number(cell 2) = 7 (which evaluates to
`7·v1 + 7·v2 = 7`, satisfiable by either orientation). -/
theorem formulate_ilp_example_puzzle :
    Region.init [s11, s12] = .ok exampleRegion ∧
    Puzzle.init exampleBoard [d34] = .ok examplePuzzle ∧
    get_sorted_spots examplePuzzle = [⟨(s11, s12)⟩, ⟨(s12, s11)⟩] ∧
    (formulate_ilp examplePuzzle).placement_vars =
      [((d34, ⟨(s11, s12)⟩), exVar1), ((d34, ⟨(s12, s11)⟩), exVar2)] ∧
    (formulate_ilp examplePuzzle).dot_number_exprs =
      [(s11, [(exVar1, 3), (exVar2, 4)]), (s12, [(exVar2, 3), (exVar1, 4)])] ∧
    (formulate_ilp examplePuzzle).problem =
      [⟨"use_domino__3|4".data, [(exVar1, 1), (exVar2, 1)], .eq, 1⟩,
       ⟨"cant_overlap__1,1".data, [(exVar1, 1), (exVar2, 1)], .eq, 1⟩,
       ⟨"cant_overlap__1,2".data, [(exVar2, 1), (exVar1, 1)], .eq, 1⟩,
       ⟨"number_condition__Rg1,1".data,
         Expr.addExpr
           (getExpr (formulate_ilp examplePuzzle).dot_number_exprs s11)
           (getExpr (formulate_ilp examplePuzzle).dot_number_exprs s12),
         .eq, 7⟩] := by
  decide

/-! ### C2: the sum-bound region conditions -/

theorem mem_formulate_ilp_problem_of_region (p : Puzzle) (c : Constraint)
    (h : c ∈ p.iter_sorted_regions.flatMap (fun region =>
      region_constraints (get_sorted_dots p)
        (create_dot_pattern_exprs p (get_sorted_spots p) (get_sorted_dots p))
        (puzzleDotNumberExprs p) region (p.get_condition region))) :
    c ∈ (formulate_ilp p).problem :=
  List.mem_append_right _ h

/-- C2: for every puzzle and every region carrying condition
`SumGreaterThan(n)` (resp. `SumLessThan(n)`), the formulator emits
exactly one constraint for that region — the sum of the dot-number
expressions over the region's coordinates `≥ n + 1` (resp. `≤ n - 1`) —
and that constraint appears in the assembled problem. -/
theorem gt_lt_region_constraint_emission (p : Puzzle) (r : Region) (n : Int) :
    (p.get_condition r = .greaterThan n →
      region_constraints (get_sorted_dots p)
          (create_dot_pattern_exprs p (get_sorted_spots p) (get_sorted_dots p))
          (puzzleDotNumberExprs p) r (.greaterThan n)
        = [gtConstraint p r n] ∧
      (r ∈ p.iter_sorted_regions →
        gtConstraint p r n ∈ (formulate_ilp p).problem)) ∧
    (p.get_condition r = .lessThan n →
      region_constraints (get_sorted_dots p)
          (create_dot_pattern_exprs p (get_sorted_spots p) (get_sorted_dots p))
          (puzzleDotNumberExprs p) r (.lessThan n)
        = [ltConstraint p r n] ∧
      (r ∈ p.iter_sorted_regions →
        ltConstraint p r n ∈ (formulate_ilp p).problem)) := by
  constructor
  · intro hcond
    refine ⟨rfl, ?_⟩
    intro hr
    refine mem_formulate_ilp_problem_of_region p _ (List.mem_flatMap.mpr ?_)
    exact ⟨r, hr, by rw [hcond]; exact List.mem_singleton_self _⟩
  · intro hcond
    refine ⟨rfl, ?_⟩
    intro hr
    refine mem_formulate_ilp_problem_of_region p _ (List.mem_flatMap.mpr ?_)
    exact ⟨r, hr, by rw [hcond]; exact List.mem_singleton_self _⟩

/-- Witness for C2 on the 1×4 fixture with a `GreaterThan 2` and a
`LessThan 9` region. -/
theorem gt_lt_region_constraint_emission_witness :
    (gtLtPuzzle.get_condition ⟨[⟨1, 1⟩, ⟨1, 2⟩]⟩ = .greaterThan 2 ∧
      gtConstraint gtLtPuzzle ⟨[⟨1, 1⟩, ⟨1, 2⟩]⟩ 2
        ∈ (formulate_ilp gtLtPuzzle).problem) ∧
    (gtLtPuzzle.get_condition ⟨[⟨1, 3⟩, ⟨1, 4⟩]⟩ = .lessThan 9 ∧
      ltConstraint gtLtPuzzle ⟨[⟨1, 3⟩, ⟨1, 4⟩]⟩ 9
        ∈ (formulate_ilp gtLtPuzzle).problem) :=
  ⟨⟨by decide,
    ((gt_lt_region_constraint_emission gtLtPuzzle ⟨[⟨1, 1⟩, ⟨1, 2⟩]⟩ 2).1
      (by decide)).2 (by decide)⟩,
   ⟨by decide,
    ((gt_lt_region_constraint_emission gtLtPuzzle ⟨[⟨1, 3⟩, ⟨1, 4⟩]⟩ 9).2
      (by decide)).2 (by decide)⟩⟩

/-! ### C5: `Region` construction and breadth-first connectivity

The plan: unfolding equations for `bfsLoop`, an invariant-carrying
induction showing the BFS visits a superset of everything adjacent to
what it visited (completeness), a soundness induction showing it visits
only spaces reachable from the start, and the equivalence between
reachability from the first space and all-pairs connectivity. -/

theorem bfsLoop_zero (rg fr vis : List Space) : bfsLoop rg 0 fr vis = vis :=
  rfl

theorem bfsLoop_nil (rg : List Space) (fuel : Nat) (vis : List Space) :
    bfsLoop rg (fuel + 1) [] vis = vis := rfl

theorem bfsLoop_cons (rg : List Space) (fuel : Nat) (s : Space)
    (rest vis : List Space) (h : s ∉ vis) :
    bfsLoop rg (fuel + 1) (s :: rest) vis =
      bfsLoop rg fuel
        (rest ++ (Space.neighbors s).filter
          (fun nb => nb ∈ rg ∧ nb ∉ (s :: vis) ∧ nb ∉ rest))
        (s :: vis) := by
  have heq : bfsLoop rg (fuel + 1) (s :: rest) vis =
      bfsLoop rg fuel
        (rest ++ (Space.neighbors s).filter
          (fun nb => nb ∈ rg ∧
            nb ∉ (if s ∈ vis then vis else s :: vis) ∧ nb ∉ rest))
        (if s ∈ vis then vis else s :: vis) := rfl
  rw [heq, if_neg h]

theorem bfsLoop_cons_mem (rg : List Space) (fuel : Nat) (s : Space)
    (rest vis : List Space) (h : s ∈ vis) :
    bfsLoop rg (fuel + 1) (s :: rest) vis =
      bfsLoop rg fuel
        (rest ++ (Space.neighbors s).filter
          (fun nb => nb ∈ rg ∧ nb ∉ vis ∧ nb ∉ rest))
        vis := by
  have heq : bfsLoop rg (fuel + 1) (s :: rest) vis =
      bfsLoop rg fuel
        (rest ++ (Space.neighbors s).filter
          (fun nb => nb ∈ rg ∧
            nb ∉ (if s ∈ vis then vis else s :: vis) ∧ nb ∉ rest))
        (if s ∈ vis then vis else s :: vis) := rfl
  rw [heq, if_pos h]

theorem neighbors_nodup (s : Space) : (Space.neighbors s).Nodup := by
  obtain ⟨r, c⟩ := s
  simp [Space.neighbors, Space.mk.injEq]
  omega

theorem mem_of_subset_of_length_le {α : Type} [DecidableEq α]
    (V l : List α) (hV : V.Nodup) (hl : l.Nodup)
    (hsub : ∀ x ∈ V, x ∈ l) (hlen : l.length ≤ V.length) :
    ∀ x ∈ l, x ∈ V := by
  have hVc : V.toFinset.card = V.length := List.toFinset_card_of_nodup hV
  have hlc : l.toFinset.card = l.length := List.toFinset_card_of_nodup hl
  have hsubf : V.toFinset ⊆ l.toFinset := by
    intro x hx
    rw [List.mem_toFinset] at *
    exact hsub x hx
  have heq : V.toFinset = l.toFinset :=
    Finset.eq_of_subset_of_card_le hsubf (by omega)
  intro x hx
  rw [← List.mem_toFinset, ← heq, List.mem_toFinset] at hx
  exact hx

theorem reachableIn_mem (l : List Space) (a b : Space)
    (h : ReachableIn l a b) (ha : a ∈ l) : b ∈ l := by
  induction h with
  | refl => exact ha
  | tail _ hstep _ => exact hstep.2

theorem stepIn_symm (l : List Space) (a b : Space) (ha : a ∈ l)
    (h : StepIn l a b) : StepIn l b a :=
  ⟨(mem_neighbors_symm a b).mpr h.1, ha⟩

theorem reachableIn_symm (l : List Space) (a b : Space) (ha : a ∈ l)
    (h : ReachableIn l a b) : ReachableIn l b a := by
  induction h with
  | refl => exact .refl
  | tail hab hstep ih =>
    rename_i b2 c2
    have hb2 : b2 ∈ l := reachableIn_mem l a b2 hab ha
    exact Relation.ReflTransGen.trans
      (Relation.ReflTransGen.single (stepIn_symm l b2 c2 hb2 hstep)) ih

theorem reachableIn_congr (l l2 : List Space)
    (hm : ∀ x, x ∈ l ↔ x ∈ l2) (a b : Space) :
    ReachableIn l a b → ReachableIn l2 a b :=
  Relation.ReflTransGen.mono (fun _ y hxy => ⟨hxy.1, (hm y).mp hxy.2⟩)

theorem spacesConnected_congr (l l2 : List Space)
    (hm : ∀ x, x ∈ l ↔ x ∈ l2) :
    SpacesConnected l ↔ SpacesConnected l2 :=
  ⟨fun h a ha b hb => reachableIn_congr l l2 hm a b
      (h a ((hm a).mpr ha) b ((hm b).mpr hb)),
   fun h a ha b hb => reachableIn_congr l2 l (fun x => (hm x).symm) a b
      (h a ((hm a).mp ha) b ((hm b).mp hb))⟩

theorem reach_head_iff_connected (l : List Space) (s0 : Space)
    (h0 : s0 ∈ l) :
    (∀ s ∈ l, ReachableIn l s0 s) ↔ SpacesConnected l := by
  constructor
  · intro h a ha b hb
    exact Relation.ReflTransGen.trans
      (reachableIn_symm l s0 a h0 (h a ha)) (h b hb)
  · intro h s hs
    exact h s0 h0 s hs

theorem bfsLoop_spec (l : List Space) (hl : l.Nodup) :
    ∀ fuel frontier visited,
      frontier.Nodup → visited.Nodup →
      (∀ x ∈ frontier, x ∈ l) → (∀ x ∈ visited, x ∈ l) →
      (∀ x ∈ frontier, x ∉ visited) →
      (∀ x ∈ visited, ∀ y, StepIn l x y → y ∈ visited ∨ y ∈ frontier) →
      l.length ≤ fuel + visited.length →
      (∀ x ∈ visited, x ∈ bfsLoop l fuel frontier visited) ∧
      (∀ x ∈ frontier, x ∈ bfsLoop l fuel frontier visited) ∧
      (∀ x ∈ bfsLoop l fuel frontier visited, x ∈ l) ∧
      (bfsLoop l fuel frontier visited).Nodup ∧
      (∀ x ∈ bfsLoop l fuel frontier visited, ∀ y, StepIn l x y →
        y ∈ bfsLoop l fuel frontier visited) := by
  intro fuel
  induction fuel with
  | zero =>
    intro frontier visited hfn hvn hfl hvl hfv hclo hlen
    rw [bfsLoop_zero]
    have hall : ∀ x ∈ l, x ∈ visited :=
      mem_of_subset_of_length_le visited l hvn hl hvl (by omega)
    exact ⟨fun x hx => hx, fun x hx => hall x (hfl x hx), hvl, hvn,
      fun x hx y hy => (hclo x hx y hy).elim id (fun hf => hall y (hfl y hf))⟩
  | succ fuel ih =>
    intro frontier visited hfn hvn hfl hvl hfv hclo hlen
    cases frontier with
    | nil =>
      rw [bfsLoop_nil]
      exact ⟨fun x hx => hx, fun x hx => absurd hx (List.not_mem_nil x), hvl,
        hvn, fun x hx y hy => (hclo x hx y hy).elim id
          (fun hf => absurd hf (List.not_mem_nil y))⟩
    | cons s rest =>
      have hsv : s ∉ visited := hfv s (List.mem_cons_self s rest)
      have hsl : s ∈ l := hfl s (List.mem_cons_self s rest)
      rw [bfsLoop_cons l fuel s rest visited hsv]
      have hrestn : rest.Nodup := (List.nodup_cons.mp hfn).2
      have hsrest : s ∉ rest := (List.nodup_cons.mp hfn).1
      have hnn : ((Space.neighbors s).filter
          (fun nb => nb ∈ l ∧ nb ∉ (s :: visited) ∧ nb ∉ rest)).Nodup :=
        (neighbors_nodup s).filter _
      have hfrontn : (rest ++ (Space.neighbors s).filter
          (fun nb => nb ∈ l ∧ nb ∉ (s :: visited) ∧ nb ∉ rest)).Nodup := by
        refine List.Nodup.append hrestn hnn ?_
        intro x hx hmem
        have hp := (List.mem_filter.mp hmem).2
        simp only [decide_eq_true_eq] at hp
        exact hp.2.2 hx
      have hvn2 : (s :: visited).Nodup := List.nodup_cons.mpr ⟨hsv, hvn⟩
      have hfl2 : ∀ x ∈ rest ++ (Space.neighbors s).filter
          (fun nb => nb ∈ l ∧ nb ∉ (s :: visited) ∧ nb ∉ rest), x ∈ l := by
        intro x hx
        rcases List.mem_append.mp hx with hx | hx
        · exact hfl x (List.mem_cons_of_mem s hx)
        · have hp := (List.mem_filter.mp hx).2
          simp only [decide_eq_true_eq] at hp
          exact hp.1
      have hvl2 : ∀ x ∈ s :: visited, x ∈ l := by
        intro x hx
        rcases List.mem_cons.mp hx with rfl | hx
        · exact hsl
        · exact hvl x hx
      have hfv2 : ∀ x ∈ rest ++ (Space.neighbors s).filter
          (fun nb => nb ∈ l ∧ nb ∉ (s :: visited) ∧ nb ∉ rest),
          x ∉ s :: visited := by
        intro x hx
        rcases List.mem_append.mp hx with hxr | hxf
        · intro hmem
          rcases List.mem_cons.mp hmem with heq | hmem
          · exact hsrest (heq ▸ hxr)
          · exact hfv x (List.mem_cons_of_mem s hxr) hmem
        · have hp := (List.mem_filter.mp hxf).2
          simp only [decide_eq_true_eq] at hp
          exact hp.2.1
      have hclo2 : ∀ x ∈ s :: visited, ∀ y, StepIn l x y →
          y ∈ s :: visited ∨ y ∈ rest ++ (Space.neighbors s).filter
            (fun nb => nb ∈ l ∧ nb ∉ (s :: visited) ∧ nb ∉ rest) := by
        intro x hx y hy
        rcases List.mem_cons.mp hx with rfl | hx
        · by_cases hy1 : y ∈ x :: visited
          · exact Or.inl hy1
          · by_cases hy2 : y ∈ rest
            · exact Or.inr (List.mem_append_left _ hy2)
            · refine Or.inr (List.mem_append_right _ ?_)
              exact List.mem_filter.mpr
                ⟨hy.1, decide_eq_true ⟨hy.2, hy1, hy2⟩⟩
        · rcases hclo x hx y hy with hmem | hmem
          · exact Or.inl (List.mem_cons_of_mem s hmem)
          · rcases List.mem_cons.mp hmem with rfl | hmem
            · exact Or.inl (List.mem_cons_self _ _)
            · exact Or.inr (List.mem_append_left _ hmem)
      have hlen2 : l.length ≤ fuel + (s :: visited).length := by
        rw [List.length_cons]
        omega
      obtain ⟨r1, r2, r3, r4, r5⟩ :=
        ih _ _ hfrontn hvn2 hfl2 hvl2 hfv2 hclo2 hlen2
      refine ⟨?_, ?_, r3, r4, r5⟩
      · intro x hx
        exact r1 x (List.mem_cons_of_mem s hx)
      · intro x hx
        rcases List.mem_cons.mp hx with rfl | hx
        · exact r1 x (List.mem_cons_self x visited)
        · exact r2 x (List.mem_append_left _ hx)

theorem bfsLoop_sound (l : List Space) (s0 : Space) :
    ∀ fuel frontier visited,
      (∀ x ∈ frontier, ReachableIn l s0 x) →
      (∀ x ∈ visited, ReachableIn l s0 x) →
      ∀ x ∈ bfsLoop l fuel frontier visited, ReachableIn l s0 x := by
  intro fuel
  induction fuel with
  | zero =>
    intro fr vis hf hv x hx
    rw [bfsLoop_zero] at hx
    exact hv x hx
  | succ fuel ih =>
    intro fr vis hf hv x hx
    cases fr with
    | nil =>
      rw [bfsLoop_nil] at hx
      exact hv x hx
    | cons s rest =>
      have hs : ReachableIn l s0 s := hf s (List.mem_cons_self s rest)
      have hrest : ∀ x ∈ rest, ReachableIn l s0 x :=
        fun x hx => hf x (List.mem_cons_of_mem s hx)
      by_cases hsv : s ∈ vis
      · rw [bfsLoop_cons_mem l fuel s rest vis hsv] at hx
        refine ih _ _ ?_ hv x hx
        intro z hz
        rcases List.mem_append.mp hz with hz | hz
        · exact hrest z hz
        · have hp1 := (List.mem_filter.mp hz).1
          have hp2 := (List.mem_filter.mp hz).2
          simp only [decide_eq_true_eq] at hp2
          exact Relation.ReflTransGen.tail hs ⟨hp1, hp2.1⟩
      · rw [bfsLoop_cons l fuel s rest vis hsv] at hx
        refine ih _ _ ?_ ?_ x hx
        · intro z hz
          rcases List.mem_append.mp hz with hz | hz
          · exact hrest z hz
          · have hp1 := (List.mem_filter.mp hz).1
            have hp2 := (List.mem_filter.mp hz).2
            simp only [decide_eq_true_eq] at hp2
            exact Relation.ReflTransGen.tail hs ⟨hp1, hp2.1⟩
        · intro z hz
          rcases List.mem_cons.mp hz with rfl | hz
          · exact hs
          · exact hv z hz

theorem check_connectedness_cons (s0 : Space) (rest : List Space) :
    Region.check_connectedness ⟨s0 :: rest⟩ =
      decide ((bfsLoop (s0 :: rest) (s0 :: rest).length [s0] []).length
        = (s0 :: rest).length) := rfl

theorem check_connectedness_iff (s0 : Space) (rest : List Space)
    (hnd : (s0 :: rest).Nodup) :
    Region.check_connectedness ⟨s0 :: rest⟩ = true ↔
      ∀ s ∈ s0 :: rest, ReachableIn (s0 :: rest) s0 s := by
  obtain ⟨r1, r2, r3, r4, r5⟩ :=
    bfsLoop_spec (s0 :: rest) hnd (s0 :: rest).length [s0] []
      (List.nodup_singleton s0) List.nodup_nil
      (fun x hx => by
        rw [List.mem_singleton.mp hx]; exact List.mem_cons_self s0 rest)
      (fun x hx => absurd hx (List.not_mem_nil x))
      (fun x _ => List.not_mem_nil x)
      (fun x hx => absurd hx (List.not_mem_nil x))
      (by omega)
  rw [check_connectedness_cons, decide_eq_true_eq]
  constructor
  · intro hlen s hs
    have hall : ∀ x ∈ s0 :: rest,
        x ∈ bfsLoop (s0 :: rest) (s0 :: rest).length [s0] [] :=
      mem_of_subset_of_length_le _ _ r4 hnd r3 (by omega)
    refine bfsLoop_sound (s0 :: rest) s0 _ [s0] [] ?_ ?_ s (hall s hs)
    · intro x hx
      rw [List.mem_singleton.mp hx]
      exact .refl
    · intro x hx
      exact absurd hx (List.not_mem_nil x)
  · intro hreach
    have hsub : ∀ s ∈ s0 :: rest,
        s ∈ bfsLoop (s0 :: rest) (s0 :: rest).length [s0] [] := by
      intro s hs
      have hr := hreach s hs
      clear hs
      induction hr with
      | refl => exact r2 s0 (List.mem_singleton_self s0)
      | tail _ hstep ih => exact r5 _ ih _ hstep
    have hc1 := List.toFinset_card_of_nodup r4
    have hc2 := List.toFinset_card_of_nodup hnd
    have hfs : (bfsLoop (s0 :: rest) (s0 :: rest).length [s0] []).toFinset
        = (s0 :: rest).toFinset := by
      ext x
      rw [List.mem_toFinset, List.mem_toFinset]
      exact ⟨r3 x, hsub x⟩
    rw [hfs] at hc1
    omega

/-- C5: for every collection of coordinates given to the `Region`
constructor: construction fails with the emptiness error when the input
has zero coordinates, fails with the uniqueness error when the input
contains literal duplicates, fails with the connectivity error when the
(unique, non-empty) input is not connected under 4-neighbor adjacency —
i.e. when the breadth-first traversal from the least element cannot
reach every element — and otherwise succeeds, yielding the canonically
sorted coordinate sequence. -/
theorem region_init_characterization (input : List Space) :
    (input = [] → Region.init input =
      .error (.valueError "region must contain at least one space".data)) ∧
    (¬ input.Nodup → Region.init input =
      .error (.valueError "spaces inside a region must be unique".data)) ∧
    (input ≠ [] → input.Nodup → ¬ SpacesConnected input →
      Region.init input =
        .error (.valueError "spaces in a region must all be connected".data)) ∧
    (input ≠ [] → input.Nodup → SpacesConnected input →
      Region.init input = .ok ⟨List.insertionSort Space.le input⟩) := by
  have hperm := List.perm_insertionSort Space.le input
  refine ⟨?_, ?_, ?_, ?_⟩
  · rintro rfl
    decide
  · intro hnd
    have hne : input ≠ [] := by
      rintro rfl
      exact hnd List.nodup_nil
    have hlen : (List.insertionSort Space.le input).length = input.length :=
      hperm.length_eq
    have hpos : 0 < input.length := List.length_pos.mpr hne
    have hndst : ¬ (List.insertionSort Space.le input).Nodup :=
      fun h => hnd (hperm.nodup_iff.mp h)
    simp only [Region.init]
    rw [if_neg (by omega), if_pos ((dedup_length_lt_iff _).mpr hndst)]
  · intro hne hnd hnconn
    have hlen : (List.insertionSort Space.le input).length = input.length :=
      hperm.length_eq
    have hpos : 0 < input.length := List.length_pos.mpr hne
    have hndst : (List.insertionSort Space.le input).Nodup :=
      hperm.nodup_iff.mpr hnd
    obtain ⟨s0, rest, hst⟩ := List.exists_cons_of_ne_nil
      (show List.insertionSort Space.le input ≠ [] by
        intro h; rw [h] at hlen; simp at hlen; omega)
    have hmem : ∀ x, x ∈ s0 :: rest ↔ x ∈ input := by
      intro x
      rw [← hst]
      exact hperm.mem_iff
    have hchk : Region.check_connectedness ⟨s0 :: rest⟩ = true ↔
        SpacesConnected input := by
      rw [check_connectedness_iff s0 rest (hst ▸ hndst),
        reach_head_iff_connected (s0 :: rest) s0 (List.mem_cons_self s0 rest)]
      exact spacesConnected_congr _ _ hmem
    simp only [Region.init]
    rw [hst]
    rw [if_neg (by simp), if_neg (by
      rw [dedup_length_lt_iff]
      exact not_not_intro (hst ▸ hndst)),
      if_neg (by
        rw [hchk]
        exact hnconn)]
  · intro hne hnd hconn
    have hlen : (List.insertionSort Space.le input).length = input.length :=
      hperm.length_eq
    have hpos : 0 < input.length := List.length_pos.mpr hne
    have hndst : (List.insertionSort Space.le input).Nodup :=
      hperm.nodup_iff.mpr hnd
    obtain ⟨s0, rest, hst⟩ := List.exists_cons_of_ne_nil
      (show List.insertionSort Space.le input ≠ [] by
        intro h; rw [h] at hlen; simp at hlen; omega)
    have hmem : ∀ x, x ∈ s0 :: rest ↔ x ∈ input := by
      intro x
      rw [← hst]
      exact hperm.mem_iff
    have hchk : Region.check_connectedness ⟨s0 :: rest⟩ = true ↔
        SpacesConnected input := by
      rw [check_connectedness_iff s0 rest (hst ▸ hndst),
        reach_head_iff_connected (s0 :: rest) s0 (List.mem_cons_self s0 rest)]
      exact spacesConnected_congr _ _ hmem
    simp only [Region.init]
    rw [hst]
    rw [if_neg (by simp), if_neg (by
      rw [dedup_length_lt_iff]
      exact not_not_intro (hst ▸ hndst)),
      if_pos (hchk.mpr hconn)]

/-- Witness for C5: the connected two-cell input `[(1,1), (1,2)]`
constructs successfully into the sorted region. -/
theorem region_init_characterization_witness :
    ([s11, s12] ≠ [] ∧ List.Nodup [s11, s12] ∧ SpacesConnected [s11, s12]) ∧
      Region.init [s11, s12] = .ok ⟨List.insertionSort Space.le [s11, s12]⟩
    := by
  have hconn : SpacesConnected [s11, s12] := by
    intro a ha b hb
    fin_cases ha <;> fin_cases hb
    · exact .refl
    · exact .single ⟨by decide, by decide⟩
    · exact .single ⟨by decide, by decide⟩
    · exact .refl
  exact ⟨⟨by decide, by decide, hconn⟩,
    (region_init_characterization [s11, s12]).2.2.2
      (by decide) (by decide) hconn⟩

end Pips
